import Mathlib

/-!
Verification of the metalwork trace-decode pipeline (COBS framer, OrbFlow
decoder, ITM state-machine decoder) against its natural-language specification.

The Rust sources are shallowly embedded: machine integers are modelled as `Nat`
with explicit `% 2^w` at the points where the source performs a truncating
cast or where a fixed-width register wraps; byte streams are `List Nat` whose
elements are assumed `< 256` where a theorem needs it.  Fallible operations
return `Except`.  Statistics counters (`u64` in the source) are modelled as
unbounded `Nat`.  Debug printing in the source is omitted.
-/

set_option linter.unusedVariables false

namespace Metalwork

/-! ## COBS framer (src/cobs/src/lib.rs) -/

/-- Current state of the decoder (enum `DecoderState`). -/
inductive DecoderState where
  | Idle
  | Rxing
  | Flushing
deriving DecidableEq, Repr

/-- Result of processing one token (enum `TokenResult`). -/
inductive TokenResult where
  | Error
  | Flushing
  | Store
  | NoAction
  | Complete
deriving DecidableEq, Repr

/-- Errors from the cobs crate (enum `CobsError`). -/
inductive CobsError where
  | Timeout
  | Ongoing
  | Overlong
  | ShortData
  | ZeroLength
  | Busy
deriving DecidableEq, Repr

/-- The decoder object (struct `Cobs`).  `rxc` is a `u8` in the source and
`maxcount` a `bool`; statistics are `u64`. -/
structure Cobs where
  state : DecoderState
  sentinel : Nat
  rxc : Nat
  maxcount : Bool
  inbytes : Nat
  goodbytes : Nat
  badbytes : Nat
  packets : Nat
  toolong : Nat
deriving DecidableEq, Repr

/-- `DEFAULT_SENTINEL` constant. -/
def DEFAULT_SENTINEL : Nat := 0

/-- `MAX_PACKET_LEN` constant. -/
def MAX_PACKET_LEN : Nat := 8192

/-- `MAX_ENC_PACKET_LEN` constant (`1 + MAX_PACKET_LEN + MAX_PACKET_LEN / 254 + 1`). -/
def MAX_ENC_PACKET_LEN : Nat := 1 + MAX_PACKET_LEN + MAX_PACKET_LEN / 254 + 1

/-- `Cobs::new`. -/
def Cobs.new : Cobs :=
  { state := .Idle, sentinel := DEFAULT_SENTINEL, rxc := 0, maxcount := false,
    inbytes := 0, goodbytes := 0, badbytes := 0, packets := 0, toolong := 0 }

/-- `Cobs::process_token`: process one token, returning the updated decoder,
the value to act on and the action. -/
def Cobs.process_token (c : Cobs) (tok : Nat) : Cobs × Nat × TokenResult :=
  match c.state with
  | .Idle =>
      if tok ≠ c.sentinel then
        ({ c with rxc := tok, maxcount := (tok == 255), state := .Rxing }, 0, .NoAction)
      else
        (c, 0, .NoAction)
  | .Rxing =>
      let c1 := { c with rxc := c.rxc - 1 }
      if c1.rxc = 0 then
        if c1.sentinel = tok then
          ({ c1 with state := .Idle }, tok, .Complete)
        else
          let action := if ¬c1.maxcount then TokenResult.Store else TokenResult.NoAction
          ({ c1 with rxc := tok, maxcount := (tok == 255) }, c1.sentinel, action)
      else
        if c1.sentinel = tok then
          ({ c1 with state := .Flushing }, tok, .Error)
        else
          (c1, tok, .Store)
  | .Flushing =>
      if c.sentinel ≠ tok then
        (c, tok, .Flushing)
      else
        ({ c with state := .Idle }, c.sentinel, .NoAction)

/-- `Cobs::get_byte`: feed one byte, updating the output buffer `op`
(whose capacity is `MAX_PACKET_LEN`, as allocated by `get_frame_as_vec`).
The returned `Bool` is true exactly when the packet completed (`Ok` return). -/
def Cobs.get_byte (c : Cobs) (tok : Nat) (op : List Nat) : Cobs × List Nat × Bool :=
  let c0 := { c with inbytes := c.inbytes + 1 }
  let r := c0.process_token tok
  match r.2.2 with
  | .Error =>
      ({ r.1 with badbytes := r.1.badbytes + op.length }, [], false)
  | .Flushing =>
      ({ r.1 with badbytes := r.1.badbytes + 1 }, op, false)
  | .NoAction => (r.1, op, false)
  | .Store =>
      if op.length < MAX_PACKET_LEN then
        (r.1, op ++ [r.2.1], false)
      else
        ({ r.1 with badbytes := r.1.badbytes + op.length, toolong := r.1.toolong + 1,
                    state := .Flushing }, [], false)
  | .Complete =>
      ({ r.1 with packets := r.1.packets + 1, goodbytes := r.1.goodbytes + op.length },
       op, true)

/-- Feed a whole byte list through `get_byte`, collecting every completed
packet (on completion the caller takes the buffer, so a fresh empty buffer is
used afterwards, as in repeated `get_frame` calls). -/
def cobsRun (c : Cobs) (op : List Nat) : List Nat → Cobs × List Nat × List (List Nat)
  | [] => (c, op, [])
  | t :: rest =>
      let r := c.get_byte t op
      if r.2.2 = true then
        let q := cobsRun r.1 [] rest
        (q.1, q.2.1, r.2.1 :: q.2.2)
      else
        cobsRun r.1 r.2.1 rest

/-- `Cobs::max_possible_enc_len` exactly as written in the source
(`1 + ip_len + ip_len / 256 + 1`). -/
def Cobs.max_possible_enc_len (ip_len : Nat) : Nat :=
  1 + ip_len + ip_len / 256 + 1

/-- First conditional of the `cobs_encode` loop body: when 254 data bytes
follow the stride position, write the `0xff` run length and start a new run.
The state is the pair `(e, d)` of output buffer and stride-byte position. -/
def encBreak (sen : Nat) (st : List Nat × Nat) : List Nat × Nat :=
  if st.1.length - st.2 = 255 then (st.1.set st.2 255 ++ [sen], st.1.length) else st

/-- Second conditional of the loop body: an input byte equal to the sentinel
terminates the current run (the `% 256` models the `as u8` cast). -/
def encSent (sen i : Nat) (st : List Nat × Nat) : List Nat × Nat :=
  if i = sen then (st.1.set st.2 ((st.1.length - st.2) % 256), st.1.length) else st

/-- One iteration of the `cobs_encode` loop body: the two conditionals
followed by the unconditional push of the input byte. -/
def encByte (sen : Nat) (st : List Nat × Nat) (i : Nat) : List Nat × Nat :=
  let st2 := encSent sen i (encBreak sen st)
  (st2.1 ++ [i], st2.2)

/-- `Cobs::cobs_encode` (the sentinel is taken from `self`; here it is an
explicit argument). -/
def cobs_encode (sen : Nat) (ip : List Nat) : Except CobsError (List Nat) :=
  if ip.length = 0 then .error .ZeroLength
  else if MAX_ENC_PACKET_LEN < Cobs.max_possible_enc_len ip.length then .error .Overlong
  else
    let st := ip.foldl (encByte sen) ([sen], 0)
    .ok (st.1.set st.2 ((st.1.length - st.2) % 256) ++ [sen])

/-- Fresh decoder with a given sentinel (a `Cobs::new` followed by
`set_sentinel(s, _)` while idle). -/
def cobsFresh (sen : Nat) : Cobs := { Cobs.new with sentinel := sen }

/-! ### Structured description of the encoder output (sentinel 0)

`encGo input run` is the remaining encoded stream when `run` is the pending
run (the bytes after the current stride-byte position) and `input` the
remaining input.  It is proved below to coincide with the `cobs_encode` loop. -/

/-- Block-structured form of the encoder stream for sentinel 0. -/
def encGo : List Nat → List Nat → List Nat
  | [], run => (run.length + 1) :: (run ++ [0])
  | i :: rest, run =>
      if run.length = 254 then
        255 :: (run ++ (if i = 0 then 1 :: encGo rest [] else encGo rest [i]))
      else if i = 0 then
        ((run.length + 1) :: run) ++ encGo rest []
      else
        encGo rest (run ++ [i])

/-- Setting the element just after a prefix of known length. -/
theorem set_at_append (fin : List Nat) (p : Nat) (run : List Nat) (v : Nat) :
    (fin ++ p :: run).set fin.length v = fin ++ v :: run := by
  induction fin with
  | nil => rfl
  | cons a t ih => simp [List.set, ih]

/-- The final write-back and terminator of `cobs_encode`. -/
def encFinalize (st : List Nat × Nat) : List Nat :=
  st.1.set st.2 ((st.1.length - st.2) % 256) ++ [0]

theorem encBreak_no (st : List Nat × Nat) (h : ¬(st.1.length - st.2 = 255)) :
    encBreak 0 st = st := by
  unfold encBreak; rw [if_neg h]

theorem encSent_no (i : Nat) (st : List Nat × Nat) (h : i ≠ 0) :
    encSent 0 i st = st := by
  unfold encSent; rw [if_neg h]

theorem encSent_yes (st : List Nat × Nat) :
    encSent 0 0 st = (st.1.set st.2 ((st.1.length - st.2) % 256), st.1.length) := by
  unfold encSent; rw [if_pos rfl]

theorem encByte_noBreak_data (fin run : List Nat) (p i : Nat)
    (hlen : run.length < 254) (hi : i ≠ 0) :
    encByte 0 (fin ++ p :: run, fin.length) i = (fin ++ p :: (run ++ [i]), fin.length) := by
  unfold encByte
  rw [encBreak_no _ (by simp; omega), encSent_no _ _ hi]
  simp

theorem encByte_noBreak_sent (fin run : List Nat) (p : Nat)
    (hlen : run.length < 254) :
    encByte 0 (fin ++ p :: run, fin.length) 0 =
      ((fin ++ (run.length + 1) :: run) ++ 0 :: [],
        (fin ++ (run.length + 1) :: run).length) := by
  unfold encByte
  rw [encBreak_no _ (by simp; omega), encSent_yes]
  have h3 : ((fin ++ p :: run, fin.length) : List Nat × Nat).1.length -
      (fin ++ p :: run, fin.length).2 = run.length + 1 := by simp
  rw [h3, Nat.mod_eq_of_lt (by omega)]
  simp only [set_at_append]
  simp

theorem encByte_break_data (fin run : List Nat) (p i : Nat)
    (hlen : run.length = 254) (hi : i ≠ 0) :
    encByte 0 (fin ++ p :: run, fin.length) i =
      ((fin ++ 255 :: run) ++ 0 :: [i], (fin ++ 255 :: run).length) := by
  unfold encByte encBreak
  rw [if_pos (by simp; omega), encSent_no _ _ hi]
  simp only [set_at_append]
  simp [hlen]

theorem encByte_break_sent (fin run : List Nat) (p : Nat)
    (hlen : run.length = 254) :
    encByte 0 (fin ++ p :: run, fin.length) 0 =
      ((fin ++ 255 :: run ++ [1]) ++ 0 :: [], (fin ++ 255 :: run ++ [1]).length) := by
  unfold encByte encBreak
  rw [if_pos (by simp; omega), encSent_yes]
  simp only [set_at_append]
  have h3 : fin ++ 255 :: run ++ [0] = (fin ++ 255 :: run) ++ 0 :: [] := by simp
  have h4 : ((fin ++ 255 :: run) ++ 0 :: []).length - (fin ++ p :: run).length = 1 := by
    simp; omega
  have h5 : (fin ++ p :: run).length = (fin ++ 255 :: run).length := by simp
  simp only [h3, h4]
  rw [h5, set_at_append]
  simp

/-- The `cobs_encode` loop, started with pending run `run` after prefix `fin`,
produces exactly `fin ++ encGo input run` (sentinel 0). -/
theorem encFold_eq :
    ∀ (input fin run : List Nat) (p : Nat), run.length ≤ 254 →
      encFinalize (input.foldl (encByte 0) (fin ++ p :: run, fin.length)) =
        fin ++ encGo input run := by
  intro input
  induction input with
  | nil =>
      intro fin run p h
      simp only [List.foldl_nil, encFinalize, encGo]
      have h1 : (fin ++ p :: run).length - fin.length = run.length + 1 := by simp
      rw [h1, Nat.mod_eq_of_lt (by omega), set_at_append]
      simp
  | cons i rest ih =>
      intro fin run p h
      rw [List.foldl_cons]
      rcases Nat.lt_or_ge run.length 254 with hlt | hge
      · by_cases hi : i = 0
        · subst hi
          rw [encByte_noBreak_sent fin run p hlt,
              ih (fin ++ (run.length + 1) :: run) [] 0 (by simp)]
          simp only [encGo]
          rw [if_neg (by omega)]
          simp
        · rw [encByte_noBreak_data fin run p i hlt hi,
              ih fin (run ++ [i]) p (by simp; omega)]
          simp only [encGo]
          rw [if_neg (by omega), if_neg hi]
      · have hlen : run.length = 254 := by omega
        by_cases hi : i = 0
        · subst hi
          rw [encByte_break_sent fin run p hlen,
              ih (fin ++ 255 :: run ++ [1]) [] 0 (by simp)]
          simp only [encGo]
          rw [if_pos hlen]
          simp
        · rw [encByte_break_data fin run p i hlen hi,
              ih (fin ++ 255 :: run) [i] 0 (by simp)]
          simp only [encGo]
          rw [if_pos hlen, if_neg hi]
          simp

/-- For an accepted input (length 1..=8192) and sentinel 0, the source encoder
produces exactly the block-structured stream. -/
theorem cobs_encode_eq (ip : List Nat) (h1 : 1 ≤ ip.length) (h2 : ip.length ≤ 8192) :
    cobs_encode 0 ip = .ok (encGo ip []) := by
  unfold cobs_encode
  rw [if_neg (by omega)]
  rw [if_neg ?hlen]
  case hlen =>
    unfold Cobs.max_possible_enc_len MAX_ENC_PACKET_LEN MAX_PACKET_LEN
    omega
  have h3 := encFold_eq ip [] [] 0 (by simp)
  simp only [List.nil_append, List.length_nil] at h3
  unfold encFinalize at h3
  simp only [h3]

/-! ### Decoding the encoded stream -/

/-- Entry conditions under which the decoder is about to read a run-length
byte: idle, or at a run boundary (`rxc = 1`).  At a boundary after a maximal
run no byte is pending; otherwise an implicit sentinel (`pre = [0]`) is
emitted before the next run begins. -/
def entryOk (c : Cobs) (pre : List Nat) : Prop :=
  (c.state = .Idle ∧ pre = []) ∨
  (c.state = .Rxing ∧ c.rxc = 1 ∧ c.maxcount = true ∧ pre = []) ∨
  (c.state = .Rxing ∧ c.rxc = 1 ∧ c.maxcount = false ∧ pre = [0])

/-- Reading a run-length byte `H` from any entry state moves the decoder to
`Rxing` with `rxc = H`, emitting the pending implicit sentinel if any. -/
theorem cobsRun_header (c : Cobs) (pre acc rest : List Nat) (H : Nat)
    (hsen : c.sentinel = 0) (hent : entryOk c pre) (h1 : 1 ≤ H) (h2 : H ≤ 255)
    (hcap : acc.length + pre.length ≤ 8192) :
    ∃ c1 : Cobs, cobsRun c acc (H :: rest) = cobsRun c1 (acc ++ pre) rest ∧
      c1.sentinel = 0 ∧ c1.state = .Rxing ∧ c1.rxc = H ∧ c1.maxcount = (H == 255) := by
  obtain ⟨st, sen, rxc, mc, inb, gb, bb, pk, tl⟩ := c
  simp only [entryOk] at hent
  simp only at hsen
  subst hsen
  have hH : H ≠ 0 := by omega
  have hne : ¬((0 : Nat) = H) := by omega
  rcases hent with ⟨hst, hpre⟩ | ⟨hst, hrxc, hmc, hpre⟩ | ⟨hst, hrxc, hmc, hpre⟩
  · subst hst; subst hpre
    refine ⟨⟨.Rxing, 0, H, H == 255, inb + 1, gb, bb, pk, tl⟩, ?_, rfl, rfl, rfl, rfl⟩
    simp [cobsRun, Cobs.get_byte, Cobs.process_token, hH]
  · subst hst; subst hrxc; subst hmc; subst hpre
    refine ⟨⟨.Rxing, 0, H, H == 255, inb + 1, gb, bb, pk, tl⟩, ?_, rfl, rfl, rfl, rfl⟩
    simp [cobsRun, Cobs.get_byte, Cobs.process_token, hne]
  · subst hst; subst hrxc; subst hmc; subst hpre
    refine ⟨⟨.Rxing, 0, H, H == 255, inb + 1, gb, bb, pk, tl⟩, ?_, rfl, rfl, rfl, rfl⟩
    have hcap2 : acc.length < MAX_PACKET_LEN := by
      simp at hcap; unfold MAX_PACKET_LEN; omega
    simp [cobsRun, Cobs.get_byte, Cobs.process_token, hne, hcap2]

/-- Consuming the data bytes of a run: each nonzero byte is stored, and the
decoder arrives at the run boundary `rxc = 1` with `maxcount` unchanged. -/
theorem cobsRun_consume :
    ∀ (run rest acc : List Nat) (c : Cobs),
      c.sentinel = 0 → c.state = .Rxing → c.rxc = run.length + 1 →
      (∀ b ∈ run, b ≠ 0) → acc.length + run.length ≤ 8192 →
      ∃ c2 : Cobs, cobsRun c acc (run ++ rest) = cobsRun c2 (acc ++ run) rest ∧
        c2.sentinel = 0 ∧ c2.state = .Rxing ∧ c2.rxc = 1 ∧ c2.maxcount = c.maxcount := by
  intro run
  induction run with
  | nil =>
      intro rest acc c hsen hst hrxc hnz hcap
      exact ⟨c, by simp, hsen, hst, hrxc, rfl⟩
  | cons b rs ih =>
      intro rest acc c hsen hst hrxc hnz hcap
      obtain ⟨st, sen, rxc, mc, inb, gb, bb, pk, tl⟩ := c
      simp only at hsen hst hrxc
      subst hsen; subst hst; subst hrxc
      simp only [List.length_cons]
      have hb : b ≠ 0 := hnz b (by simp)
      have hne : ¬(rs.length + 1 + 1 - 1 = 0) := by omega
      have hne2 : ¬((0 : Nat) = b) := fun h => hb h.symm
      have hcap2 : acc.length < MAX_PACKET_LEN := by
        simp at hcap; unfold MAX_PACKET_LEN; omega
      have hstep : cobsRun
          ⟨.Rxing, 0, rs.length + 1 + 1, mc, inb, gb, bb, pk, tl⟩ acc (b :: (rs ++ rest)) =
          cobsRun ⟨.Rxing, 0, rs.length + 1, mc, inb + 1, gb, bb, pk, tl⟩
            (acc ++ [b]) (rs ++ rest) := by
        simp [cobsRun, Cobs.get_byte, Cobs.process_token, hne, hne2, hcap2]
      rw [List.cons_append, hstep]
      obtain ⟨c2, he, h3, h4, h5, h6⟩ :=
        ih rest (acc ++ [b]) ⟨.Rxing, 0, rs.length + 1, mc, inb + 1, gb, bb, pk, tl⟩
          rfl rfl rfl (fun x hx => hnz x (by simp [hx])) (by simp at hcap ⊢; omega)
      exact ⟨c2, by rw [he]; simp, h3, h4, h5, h6⟩

/-- Decoding the block-structured stream from any entry state produces exactly
one completed packet, consisting of the stored prefix, the pending implicit
sentinel, the pending run and the remaining input. -/
theorem cobs_decode_main :
    ∀ (input run acc : List Nat) (c : Cobs) (pre : List Nat),
      c.sentinel = 0 → entryOk c pre → (∀ b ∈ run, b ≠ 0) → run.length ≤ 254 →
      acc.length + pre.length + run.length + input.length ≤ 8192 →
      ∃ c9, cobsRun c acc (encGo input run) = (c9, [], [acc ++ pre ++ run ++ input]) := by
  intro input
  induction input with
  | nil =>
      intro run acc c pre hsen hent hnz hrun hcap
      simp only [encGo]
      obtain ⟨c1, he1, hs1, hst1, hrxc1, hmc1⟩ :=
        cobsRun_header c pre acc (run ++ [0]) (run.length + 1) hsen hent
          (by omega) (by omega) (by omega)
      rw [he1]
      obtain ⟨c2, he2, hs2, hst2, hrxc2, hmc2⟩ :=
        cobsRun_consume run [0] (acc ++ pre) c1 hs1 hst1 hrxc1 hnz
          (by simp; omega)
      rw [he2]
      obtain ⟨st2, sen2, rxc2, mc2, inb2, gb2, bb2, pk2, tl2⟩ := c2
      simp only at hs2 hst2 hrxc2
      subst hs2; subst hst2; subst hrxc2
      refine ⟨⟨.Idle, 0, 0, mc2, inb2 + 1, gb2 + (acc ++ pre ++ run).length,
        bb2, pk2 + 1, tl2⟩, ?_⟩
      simp [cobsRun, Cobs.get_byte, Cobs.process_token]
  | cons i rest ih =>
      intro run acc c pre hsen hent hnz hrun hcap
      rcases Nat.lt_or_ge run.length 254 with hlt | hge
      · by_cases hi : i = 0
        · subst hi
          have hstream : encGo (0 :: rest) run =
              (run.length + 1) :: (run ++ encGo rest []) := by
            simp only [encGo]
            rw [if_neg (by omega : ¬run.length = 254)]
            simp
          rw [hstream]
          obtain ⟨c1, he1, hs1, hst1, hrxc1, hmc1⟩ :=
            cobsRun_header c pre acc (run ++ encGo rest []) (run.length + 1) hsen hent
              (by omega) (by omega) (by omega)
          rw [he1]
          obtain ⟨c2, he2, hs2, hst2, hrxc2, hmc2⟩ :=
            cobsRun_consume run (encGo rest []) (acc ++ pre) c1 hs1 hst1 hrxc1 hnz
              (by simp; omega)
          rw [he2]
          have hmcf : c2.maxcount = false := by
            rw [hmc2, hmc1]
            simp only [beq_eq_false_iff_ne]
            omega
          obtain ⟨c9, he9⟩ := ih [] (acc ++ pre ++ run) c2 [0] hs2
            (Or.inr (Or.inr ⟨hst2, hrxc2, hmcf, rfl⟩)) (by simp) (by simp)
            (by simp at hcap ⊢; omega)
          refine ⟨c9, ?_⟩
          rw [he9]
          simp
        · have hstream : encGo (i :: rest) run = encGo rest (run ++ [i]) := by
            simp only [encGo]
            rw [if_neg (by omega : ¬run.length = 254), if_neg hi]
          rw [hstream]
          obtain ⟨c9, he9⟩ := ih (run ++ [i]) acc c pre hsen hent
            (by intro x hx; rcases List.mem_append.mp hx with h | h
                · exact hnz x h
                · simp at h; subst h; exact hi)
            (by simp; omega) (by simp at hcap ⊢; omega)
          refine ⟨c9, ?_⟩
          rw [he9]
          simp
      · have hlen : run.length = 254 := by omega
        by_cases hi : i = 0
        · subst hi
          have hstream : encGo (0 :: rest) run = 255 :: (run ++ 1 :: encGo rest []) := by
            simp only [encGo]
            rw [if_pos hlen]
            simp
          rw [hstream]
          obtain ⟨c1, he1, hs1, hst1, hrxc1, hmc1⟩ :=
            cobsRun_header c pre acc (run ++ 1 :: encGo rest []) 255 hsen hent
              (by omega) (by omega) (by omega)
          rw [he1]
          obtain ⟨c2, he2, hs2, hst2, hrxc2, hmc2⟩ :=
            cobsRun_consume run (1 :: encGo rest []) (acc ++ pre) c1 hs1 hst1
              (by omega) hnz (by simp at hcap ⊢; omega)
          rw [he2]
          have hmct : c2.maxcount = true := by rw [hmc2, hmc1]; simp
          obtain ⟨c3, he3, hs3, hst3, hrxc3, hmc3⟩ :=
            cobsRun_header c2 [] (acc ++ pre ++ run) (encGo rest []) 1 hs2
              (Or.inr (Or.inl ⟨hst2, hrxc2, hmct, rfl⟩)) (by omega) (by omega)
              (by simp at hcap ⊢; omega)
          rw [he3]
          have hmcf : c3.maxcount = false := by rw [hmc3]; simp
          obtain ⟨c9, he9⟩ := ih [] (acc ++ pre ++ run ++ []) c3 [0] hs3
            (Or.inr (Or.inr ⟨hst3, hrxc3, hmcf, rfl⟩)) (by simp) (by simp)
            (by simp at hcap ⊢; omega)
          refine ⟨c9, ?_⟩
          rw [he9]
          simp
        · have hstream : encGo (i :: rest) run = 255 :: (run ++ encGo rest [i]) := by
            simp only [encGo]
            rw [if_pos hlen, if_neg hi]
          rw [hstream]
          obtain ⟨c1, he1, hs1, hst1, hrxc1, hmc1⟩ :=
            cobsRun_header c pre acc (run ++ encGo rest [i]) 255 hsen hent
              (by omega) (by omega) (by omega)
          rw [he1]
          obtain ⟨c2, he2, hs2, hst2, hrxc2, hmc2⟩ :=
            cobsRun_consume run (encGo rest [i]) (acc ++ pre) c1 hs1 hst1
              (by omega) hnz (by simp at hcap ⊢; omega)
          rw [he2]
          have hmct : c2.maxcount = true := by rw [hmc2, hmc1]; simp
          obtain ⟨c9, he9⟩ := ih [i] (acc ++ pre ++ run) c2 [] hs2
            (Or.inr (Or.inl ⟨hst2, hrxc2, hmct, rfl⟩))
            (by intro x hx; simp at hx; subst hx; exact hi) (by simp)
            (by simp at hcap ⊢; omega)
          refine ⟨c9, ?_⟩
          rw [he9]
          simp

/-! ### COBS claims -/

/-- C1 counterexample: with sentinel 2 the one-byte payload `[7]` encodes to
`[2, 7, 2]` whose leading run-length byte equals the sentinel, so a fresh
decoder with sentinel 2 completes no packet at all (the claim demands that it
complete exactly `[7]`). -/
theorem c1_counterexample :
    cobs_encode 2 [7] = .ok [2, 7, 2] ∧
    (cobsRun (cobsFresh 2) [] [2, 7, 2]).2.2 = [] := ⟨rfl, rfl⟩

/-- C1 (amended): for every payload of length 1..=8192 over bytes, encoding
with the default sentinel 0 and feeding the encoded bytes through a fresh
COBS decoder (sentinel 0) yields exactly the payload as the one completed
packet. -/
theorem c1_roundtrip_sentinel0 (P : List Nat) (h1 : 1 ≤ P.length)
    (h2 : P.length ≤ MAX_PACKET_LEN) (hb : ∀ b ∈ P, b < 256) :
    ∃ e, cobs_encode 0 P = .ok e ∧ (cobsRun Cobs.new [] e).2.2 = [P] := by
  have h2b : P.length ≤ 8192 := by simpa [MAX_PACKET_LEN] using h2
  refine ⟨encGo P [], cobs_encode_eq P h1 h2b, ?_⟩
  obtain ⟨c9, h9⟩ := cobs_decode_main P [] [] Cobs.new [] rfl (Or.inl ⟨rfl, rfl⟩)
    (by simp) (by simp) (by simpa)
  rw [h9]
  simp

/-- Witness for C1: the amended round trip evaluated at the payload `[5]`. -/
theorem c1_roundtrip_sentinel0_witness :
    1 ≤ ([5] : List Nat).length ∧ ([5] : List Nat).length ≤ MAX_PACKET_LEN ∧
      (∀ b ∈ ([5] : List Nat), b < 256) ∧
      ∃ e, cobs_encode 0 [5] = .ok e ∧ (cobsRun Cobs.new [] e).2.2 = [[5]] :=
  ⟨by decide, by decide, by decide,
    c1_roundtrip_sentinel0 [5] (by decide) (by decide) (by decide)⟩

/-- `process_token` never touches the statistics counters. -/
theorem process_token_stats (c : Cobs) (tok : Nat) :
    (c.process_token tok).1.goodbytes = c.goodbytes ∧
    (c.process_token tok).1.badbytes = c.badbytes ∧
    (c.process_token tok).1.inbytes = c.inbytes := by
  obtain ⟨st, sen, rxc, mc, inb, gb, bb, pk, tl⟩ := c
  cases st <;> simp only [Cobs.process_token] <;> split_ifs <;> simp

/-- One `get_byte` step can increase `goodbytes + badbytes + open` by at most
one, matching the one-byte increase of `inbytes` (on completion the buffer is
handed to the caller, so the open count drops to zero). -/
theorem get_byte_stats (c : Cobs) (t : Nat) (op : List Nat)
    (h : c.goodbytes + c.badbytes + op.length ≤ c.inbytes) :
    (c.get_byte t op).1.goodbytes + (c.get_byte t op).1.badbytes +
      (if (c.get_byte t op).2.2 then 0 else (c.get_byte t op).2.1.length)
      ≤ (c.get_byte t op).1.inbytes := by
  have hpt := process_token_stats { c with inbytes := c.inbytes + 1 } t
  simp only [Cobs.get_byte]
  rcases hr : ({ c with inbytes := c.inbytes + 1 } : Cobs).process_token t with ⟨c1, val, act⟩
  rw [hr] at hpt
  simp only [hr]
  simp only at hpt
  obtain ⟨hg, hb2, hi⟩ := hpt
  cases act
  case Error => simp; omega
  case Flushing => simp; omega
  case NoAction => simp; omega
  case Store => simp only []; split_ifs <;> simp <;> omega
  case Complete => simp; omega

/-- The byte-accounting inequality is preserved along any stream. -/
theorem cobsRun_stats :
    ∀ (stream : List Nat) (c : Cobs) (op : List Nat),
      c.goodbytes + c.badbytes + op.length ≤ c.inbytes →
      (cobsRun c op stream).1.goodbytes + (cobsRun c op stream).1.badbytes +
        (cobsRun c op stream).2.1.length ≤ (cobsRun c op stream).1.inbytes := by
  intro stream
  induction stream with
  | nil =>
      intro c op h
      simpa [cobsRun] using h
  | cons t rest ih =>
      intro c op h
      have hstep := get_byte_stats c t op h
      simp only [cobsRun]
      cases hdone : (c.get_byte t op).2.2
      · simp only [hdone, Bool.false_eq_true, if_false] at hstep
        simp only [hdone, Bool.false_eq_true, if_false]
        exact ih (c.get_byte t op).1 (c.get_byte t op).2.1 hstep
      · simp only [hdone, eq_self_iff_true, if_true] at hstep
        simp only [hdone, eq_self_iff_true, if_true]
        have h2 := ih (c.get_byte t op).1 [] (by simpa using hstep)
        simpa using h2

/-- C7 counterexample: feeding the single byte `0x01` (a run-length header)
to a fresh decoder gives `in_bytes = 1` while
`good_bytes + bad_bytes + open = 0`, refuting the claimed equality. -/
theorem c7_counterexample :
    (cobsRun Cobs.new [] [1]).1.inbytes = 1 ∧
    (cobsRun Cobs.new [] [1]).1.goodbytes + (cobsRun Cobs.new [] [1]).1.badbytes +
      (cobsRun Cobs.new [] [1]).2.1.length = 0 := ⟨rfl, rfl⟩

/-- C7 (amended): for every byte stream fed byte-by-byte into a fresh COBS
decoder, `good_bytes + bad_bytes + bytes_in_open_packet ≤ in_bytes` holds
after every step (overhead bytes are counted by `in_bytes` only). -/
theorem c7_stats_inequality (stream : List Nat) :
    (cobsRun Cobs.new [] stream).1.goodbytes + (cobsRun Cobs.new [] stream).1.badbytes +
      (cobsRun Cobs.new [] stream).2.1.length ≤ (cobsRun Cobs.new [] stream).1.inbytes :=
  cobsRun_stats stream Cobs.new [] (by decide)

/-- C8: `max_possible_enc_len` divides by 256, so at input length 254 it
returns 256, not the value `1 + 254 + ceil(254/254) + 1 = 257` stated by its
own documentation (and by the COBS paper). -/
theorem c8_max_enc_len_bug :
    Cobs.max_possible_enc_len 254 = 256 ∧
    Cobs.max_possible_enc_len 254 ≠ 1 + 254 + (254 + 253) / 254 + 1 := ⟨rfl, by decide⟩

/-! ## OrbFlow decoder (src/oflow/src/lib.rs) -/

/-- Errors from the oflow crate (enum `OFlowError`). -/
inductive OFlowError where
  | ZeroLength
  | Overlong
  | ShortData
  | BadChecksum
  | Unimplemented
deriving DecidableEq, Repr

/-- An OrbFlow frame (struct `OFlowFrame`): the stream number and the complete
wire frame (stream number, payload, checksum). -/
structure OFlowFrame where
  stream_number : Nat
  inner : List Nat
deriving DecidableEq, Repr

/-- `OFlow::MAX_PACKET_LEN`. -/
def OFlow.MAX_PACKET_LEN : Nat := 8192

/-- `OFlow::STREAM_LEN`. -/
def OFlow.STREAM_LEN : Nat := 1

/-- `OFlow::CHECKSUM_LEN`. -/
def OFlow.CHECKSUM_LEN : Nat := 1

/-- `OFlow::OVERHEAD_LEN`. -/
def OFlow.OVERHEAD_LEN : Nat := OFlow.STREAM_LEN + OFlow.CHECKSUM_LEN

/-- `OFlow::MAX_ENC_PACKET_LEN`. -/
def OFlow.MAX_ENC_PACKET_LEN : Nat := OFlow.OVERHEAD_LEN + OFlow.MAX_PACKET_LEN

/-- `OFlowFrame::content`: the slice `inner[STREAM_LEN .. len - CHECKSUM_LEN]`. -/
def OFlowFrame.content (f : OFlowFrame) : List Nat :=
  (f.inner.drop OFlow.STREAM_LEN).take
    (f.inner.length - OFlow.CHECKSUM_LEN - OFlow.STREAM_LEN)

/-- The `Index` implementation for `OFlowFrame`: `none` models the
`Index out of range` panic, otherwise the byte `inner[i + STREAM_LEN]` is
returned. -/
def OFlowFrame.indexGet (f : OFlowFrame) (i : Nat) : Option Nat :=
  if f.inner.length < 2 ∨ i > f.inner.length - 1 - OFlow.CHECKSUM_LEN then none
  else f.inner[i + OFlow.STREAM_LEN]?

/-- The OFLOW encoder/decoder object (struct `OFlow`), statistics only. -/
structure OFlow where
  inbytestotal : Nat
  inpackets : Nat
  inerrpackets : Nat
deriving DecidableEq, Repr

/-- `OFlow::new`. -/
def OFlow.new : OFlow := ⟨0, 0, 0⟩

/-- `OFlow::decode`: length gates, zero-sum checksum over all bytes, then the
frame is built from the moved-in buffer. -/
def OFlow.decode (o : OFlow) (ip : List Nat) : OFlow × Except OFlowError OFlowFrame :=
  if ip.length < 1 + OFlow.OVERHEAD_LEN then
    ({ o with inerrpackets := o.inerrpackets + 1 }, .error .ShortData)
  else if ip.length > OFlow.MAX_ENC_PACKET_LEN then
    ({ o with inerrpackets := o.inerrpackets + 1 }, .error .Overlong)
  else if ip.sum % 256 ≠ 0 then
    ({ o with inerrpackets := o.inerrpackets + 1 }, .error .BadChecksum)
  else
    ({ o with inpackets := o.inpackets + 1,
              inbytestotal := o.inbytestotal + (ip.length - OFlow.OVERHEAD_LEN) },
     .ok ⟨ip.headD 0, ip⟩)

/-- `OFlow::get_checksum`: wrapping `u8` sum of the payload plus the stream
number, negated mod 256 (`(256usize - sum) as u8`). -/
def OFlow.get_checksum (stream_number : Nat) (ip : List Nat) : Nat :=
  (256 - ((ip.sum + stream_number) % 256)) % 256

/-- `OFlow::encode_to_vec`: gates, then the flattened
`[stream_number] ++ payload ++ [checksum]` produced by the frame macro. -/
def OFlow.encode_to_vec (o : OFlow) (stream_number : Nat) (ip : List Nat) :
    OFlow × Except OFlowError (List Nat) :=
  if ip.length = 0 then (o, .error .ZeroLength)
  else if ip.length > OFlow.MAX_PACKET_LEN then (o, .error .Overlong)
  else (o, .ok ([stream_number] ++ ip ++ [OFlow.get_checksum stream_number ip]))

/-- Taking exactly the length of the left part of an append. -/
theorem take_len_append (l1 l2 : List Nat) : (l1 ++ l2).take l1.length = l1 := by
  induction l1 with
  | nil => rfl
  | cons a t ih => simp [ih]

/-- C4: for every stream byte and payload of length 1..=8192,
`encode_to_vec` succeeds, the encoded frame sums to 0 mod 256, and `decode`
returns a frame with the original stream number and payload. -/
theorem c4_oflow_roundtrip (o o2 : OFlow) (s : Nat) (ip : List Nat)
    (hs : s < 256) (h1 : 1 ≤ ip.length) (h2 : ip.length ≤ OFlow.MAX_PACKET_LEN) :
    ∃ (enc : List Nat) (fr : OFlowFrame),
      (OFlow.encode_to_vec o s ip).2 = .ok enc ∧
      enc.sum % 256 = 0 ∧
      (OFlow.decode o2 enc).2 = .ok fr ∧
      fr.stream_number = s ∧ fr.content = ip := by
  have h2b : ip.length ≤ 8192 := by
    simpa [OFlow.MAX_PACKET_LEN] using h2
  refine ⟨[s] ++ ip ++ [OFlow.get_checksum s ip], ⟨s, [s] ++ ip ++ [OFlow.get_checksum s ip]⟩,
    ?_, ?_, ?_, rfl, ?_⟩
  · unfold OFlow.encode_to_vec
    rw [if_neg (by omega), if_neg (by simp [OFlow.MAX_PACKET_LEN]; omega)]
  · unfold OFlow.get_checksum
    simp
    omega
  · have hsum : ([s] ++ ip ++ [OFlow.get_checksum s ip]).sum % 256 = 0 := by
      unfold OFlow.get_checksum
      simp
      omega
    unfold OFlow.decode
    rw [if_neg (by simp [OFlow.OVERHEAD_LEN, OFlow.STREAM_LEN, OFlow.CHECKSUM_LEN]; omega),
        if_neg (by simp [OFlow.MAX_ENC_PACKET_LEN, OFlow.OVERHEAD_LEN, OFlow.STREAM_LEN,
          OFlow.CHECKSUM_LEN, OFlow.MAX_PACKET_LEN]; omega),
        if_neg (by simpa using hsum)]
    simp
  · unfold OFlowFrame.content
    simp only [OFlow.STREAM_LEN, OFlow.CHECKSUM_LEN]
    have hlen : ([s] ++ ip ++ [OFlow.get_checksum s ip]).length - 1 - 1 = ip.length := by
      simp
    rw [hlen]
    have hdrop : (([s] ++ ip ++ [OFlow.get_checksum s ip]).drop 1) =
        ip ++ [OFlow.get_checksum s ip] := by simp
    rw [hdrop, take_len_append]

/-- Witness for C4: the round trip evaluated at stream 27 and payload
`[1, 2, 3]`. -/
theorem c4_oflow_roundtrip_witness :
    (27 : Nat) < 256 ∧ 1 ≤ ([1, 2, 3] : List Nat).length ∧
      ([1, 2, 3] : List Nat).length ≤ OFlow.MAX_PACKET_LEN ∧
      ∃ (enc : List Nat) (fr : OFlowFrame),
        (OFlow.encode_to_vec OFlow.new 27 [1, 2, 3]).2 = .ok enc ∧
        enc.sum % 256 = 0 ∧
        (OFlow.decode OFlow.new enc).2 = .ok fr ∧
        fr.stream_number = 27 ∧ fr.content = [1, 2, 3] :=
  ⟨by decide, by decide, by decide,
    c4_oflow_roundtrip OFlow.new OFlow.new 27 [1, 2, 3] (by decide) (by decide) (by decide)⟩

/-- C9 counterexample: the frame decoded from `[27, 1, 2, 3, 223]` has payload
length 3, yet indexed access at 3 does not panic: it returns the checksum
byte 223 (the guard is off by one, forgetting the stream-number offset). -/
theorem c9_counterexample :
    (OFlow.decode OFlow.new [27, 1, 2, 3, 223]).2 = .ok ⟨27, [27, 1, 2, 3, 223]⟩ ∧
    (OFlowFrame.content ⟨27, [27, 1, 2, 3, 223]⟩).length = 3 ∧
    OFlowFrame.indexGet ⟨27, [27, 1, 2, 3, 223]⟩ 3 = some 223 := ⟨rfl, rfl, rfl⟩

/-- C9 (amended): for every successfully decoded frame with payload length P,
indexed access at i < P returns the payload byte `content()[i]`; access at
i = P returns the trailing checksum byte without panicking; and access panics
exactly for i > P. -/
theorem c9_index_behavior (o : OFlow) (ip : List Nat) (fr : OFlowFrame)
    (hdec : (OFlow.decode o ip).2 = .ok fr) (i : Nat) :
    (i < fr.content.length → fr.indexGet i = fr.content[i]?) ∧
    (i = fr.content.length → fr.indexGet i = fr.inner[fr.inner.length - 1]?) ∧
    (fr.content.length < i → fr.indexGet i = none) := by
  unfold OFlow.decode at hdec
  by_cases ha : ip.length < 1 + OFlow.OVERHEAD_LEN
  · rw [if_pos ha] at hdec
    exact absurd hdec (by simp)
  rw [if_neg ha] at hdec
  by_cases hb : ip.length > OFlow.MAX_ENC_PACKET_LEN
  · rw [if_pos hb] at hdec
    exact absurd hdec (by simp)
  rw [if_neg hb] at hdec
  by_cases hc : ip.sum % 256 ≠ 0
  · rw [if_pos hc] at hdec
    exact absurd hdec (by simp)
  rw [if_neg hc] at hdec
  simp only [Except.ok.injEq] at hdec
  subst hdec
  simp only [OFlow.OVERHEAD_LEN, OFlow.STREAM_LEN, OFlow.CHECKSUM_LEN, not_lt,
    not_le] at ha hb
  have hlen3 : 3 ≤ ip.length := by omega
  have hclen : (OFlowFrame.content ⟨ip.headD 0, ip⟩).length = ip.length - 2 := by
    unfold OFlowFrame.content
    simp [OFlow.STREAM_LEN, OFlow.CHECKSUM_LEN]
    omega
  refine ⟨?_, ?_, ?_⟩
  · intro hi
    rw [hclen] at hi
    unfold OFlowFrame.indexGet
    rw [if_neg (by simp [OFlow.CHECKSUM_LEN]; omega)]
    unfold OFlowFrame.content
    simp only [OFlow.STREAM_LEN, OFlow.CHECKSUM_LEN]
    rw [List.getElem?_take_of_lt (by omega), List.getElem?_drop]
    simp [Nat.add_comm]
  · intro hi
    rw [hclen] at hi
    unfold OFlowFrame.indexGet
    rw [if_neg (by simp [OFlow.CHECKSUM_LEN]; omega)]
    simp only [OFlow.STREAM_LEN]
    have h9 : i + 1 = ip.length - 1 := by omega
    rw [h9]
  · intro hi
    rw [hclen] at hi
    unfold OFlowFrame.indexGet
    rw [if_pos (by simp [OFlow.CHECKSUM_LEN]; omega)]

/-- Witness for C9: the amended index behaviour evaluated on the frame
decoded from `[27, 1, 2, 3, 223]` at index 1. -/
theorem c9_index_behavior_witness :
    (1 < (OFlowFrame.content ⟨27, [27, 1, 2, 3, 223]⟩).length →
      OFlowFrame.indexGet ⟨27, [27, 1, 2, 3, 223]⟩ 1 =
        (OFlowFrame.content ⟨27, [27, 1, 2, 3, 223]⟩)[1]?) ∧
    (1 = (OFlowFrame.content ⟨27, [27, 1, 2, 3, 223]⟩).length →
      OFlowFrame.indexGet ⟨27, [27, 1, 2, 3, 223]⟩ 1 =
        (OFlowFrame.inner ⟨27, [27, 1, 2, 3, 223]⟩)[(OFlowFrame.inner
          ⟨27, [27, 1, 2, 3, 223]⟩).length - 1]?) ∧
    ((OFlowFrame.content ⟨27, [27, 1, 2, 3, 223]⟩).length < 1 →
      OFlowFrame.indexGet ⟨27, [27, 1, 2, 3, 223]⟩ 1 = none) :=
  c9_index_behavior OFlow.new [27, 1, 2, 3, 223] ⟨27, [27, 1, 2, 3, 223]⟩ rfl 1

/-! ## ITM decoder (src/itm/src/lib.rs)

The polymorphic `Box<dyn State>` objects of the source become the single
inductive `ITMSt`, one constructor per state struct, with the struct fields as
constructor arguments.  Each `State::token` / `StateMatch::matches` impl
becomes one function returning the updated internal data, the successor state
(the mutated `self`, or the replacement state when the source returns
`Some(newstate)`; `None` from a `matches` leaves the decoder in `Idle`), and
the emitted frame.  `u32`/`u64` accumulators are `Nat`; `% 4294967296` is
written at the `|=`-shift sites where a `u32` result can exceed 32 bits.
The source's `panic!()` arm in `DataTrace::matches` and its overflow-checked
shifts are tracked by the separate `stSafe` predicate below. -/

/-- `ITM_SYNCMASK`. -/
def ITM_SYNCMASK : Nat := 0xFFFFFFFFFFFF

/-- `ITM_SYNCPATTERN`. -/
def ITM_SYNCPATTERN : Nat := 0x000000000080

/-- `TPIU_SYNCMASK`. -/
def TPIU_SYNCMASK : Nat := 0xFFFFFFFF

/-- `TPIU_SYNCPATTERN`. -/
def TPIU_SYNCPATTERN : Nat := 0xFFFFFF7F

/-- Errors from the itm crate (enum `ITMError`). -/
inductive ITMError where
  | ShortData
  | Unimplemented
deriving DecidableEq, Repr

/-- Types of timestamp (enum `TSType`). -/
inductive TSType where
  | Sync
  | TSDelayed
  | DataDelayed
  | BothDelayed
deriving DecidableEq, Repr

/-- Types of exception event (enum `ExceptionEvent`). -/
inductive ExceptionEvent where
  | Unknown
  | Entry
  | Exit
  | Returned
deriving DecidableEq, Repr

/-- Data trace subkinds (enum `DataMatchType`). -/
inductive DataMatchType where
  | Match
  | PCMatch
  | DataAddrMatch
  | DataValMatch
deriving DecidableEq, Repr

/-- Emitted frames (enum `ITMFrame`). -/
inductive ITMFrame where
  | Empty
  | Timestamp (ttype : TSType) (ts : Nat)
  | Globaltimestamp (has_wrapped : Bool) (ts : Nat)
  | Instrumentation (addr : Nat) (data : Nat) (len : Nat)
  | Exception (no : Nat) (event : ExceptionEvent)
  | DataTracePC (index : Nat) (addr : Nat) (len : Nat)
  | DataTraceAddr (index : Nat) (daddr : Nat) (len : Nat)
  | DataTraceValue (index : Nat) (addr : Nat) (len : Nat) (wnr : Bool)
  | DataTraceMatch (index : Nat)
  | PCSleep (prohibited : Bool)
  | PCSample (addr : Nat)
  | Xtn (source : Bool) (len : Nat) (ex : Nat)
  | TPIUSync (count : Nat)
  | Sync (count : Nat)
  | Overflow (count : Nat)
  | EventC (cpicnt_wrapped exccnt_wrapped sleepcnt_wrapped lsucnt_wrapped
      foldcnt_wrapped postcnt_wrapped : Bool)
  | PMUOverflow (ovf : Nat)
deriving DecidableEq, Repr

/-- Decode statistics (struct `ITMStats`). -/
structure ITMStats where
  inbytestotal : Nat
  inpackets : Nat
  tpiusync : Nat
  itmsync : Nat
  instrupkts : Nat
  overflow : Nat
  ts : Nat
  noise : Nat
deriving DecidableEq, Repr

/-- Sticky decoder data (struct `ITMInternal`). -/
structure ITMInternal where
  last_bytes : Nat
  page_register : Nat
  context_idlen : Nat
  timestamp : Nat
  gtimestamp : Nat
  stats : ITMStats
deriving DecidableEq, Repr

/-- The decoder states: one constructor per state struct of the source, the
struct fields as arguments (the unused `event` field of `Exception` is kept). -/
inductive ITMSt where
  | Unsynced
  | Idle
  | Instrumentation (target count addr data : Nat)
  | Xtn (ex : Nat) (source : Bool) (bitcount count : Nat)
  | Lts (count ttypen : Nat) (ts : Nat)
  | Gts2 (count gts : Nat)
  | Gts1 (count gts : Nat) (wrap : Bool)
  | Exception (no count event : Nat)
  | DataTrace (index len count addr : Nat) (dt_type : DataMatchType) (wnr : Bool)
  | PCSample (len count addr : Nat)
  | Event
  | PMUOverflow
deriving DecidableEq, Repr

/-- `Overflow::matches`: count and emit, staying in `Idle`. -/
def overflowMatches (_tok : Nat) (i : ITMInternal) :
    ITMInternal × ITMSt × Option ITMFrame :=
  let i2 := { i with stats := { i.stats with overflow := i.stats.overflow + 1 } }
  (i2, .Idle, some (.Overflow i2.stats.overflow))

/-- `Gts1::matches`: start from the sticky global timestamp. -/
def gts1Matches (_tok : Nat) (i : ITMInternal) :
    ITMInternal × ITMSt × Option ITMFrame :=
  (i, ITMSt.Gts1 0 i.gtimestamp false, none)

/-- `Gts2::matches`. -/
def gts2Matches (_tok : Nat) (i : ITMInternal) :
    ITMInternal × ITMSt × Option ITMFrame :=
  (i, ITMSt.Gts2 0 0, none)

/-- `Lts::matches`: single-byte type-2 form emits immediately, the type-1
form opens the accumulator. -/
def ltsMatches (tok : Nat) (i : ITMInternal) :
    ITMInternal × ITMSt × Option ITMFrame :=
  let i2 := { i with stats := { i.stats with ts := i.stats.ts + 1 } }
  if tok &&& 0x80 = 0 then
    (i2, .Idle, some (.Timestamp TSType.Sync ((tok >>> 4) &&& 7)))
  else
    (i2, ITMSt.Lts 0 ((tok >>> 4) &&& 3) 0, none)

/-- `Xtn::matches`: the single-byte form with bit 2 set updates the page
register and emits nothing; otherwise the short form is emitted or the
accumulator is opened with `bitcount = 3`. -/
def xtnMatches (tok : Nat) (i : ITMInternal) :
    ITMInternal × ITMSt × Option ITMFrame :=
  if tok &&& 0x80 = 0 then
    if tok &&& 4 ≠ 0 then
      ({ i with page_register := 32 * ((tok >>> 4) &&& 7) }, ITMSt.Idle, none)
    else
      (i, ITMSt.Idle, some (.Xtn (tok &&& 4 != 0) 0 ((tok >>> 4) &&& 7)))
  else
    (i, ITMSt.Xtn ((tok >>> 4) &&& 7) (tok &&& 4 != 0) 3 0, none)

/-- `Event::matches`. -/
def eventMatches (_tok : Nat) (i : ITMInternal) :
    ITMInternal × ITMSt × Option ITMFrame :=
  (i, ITMSt.Event, none)

/-- The data-trace subkind dispatch inside `DataTrace::matches`.  The final
arm stands where the source diverges (`panic!()`); `stSafe` below proves the
arm unreachable from `Idle` dispatch. -/
def dtTypeOf (tok : Nat) : DataMatchType :=
  if tok &&& 0xCF = 0x45 then .Match
  else if tok &&& 0xCC = 0x44 then .PCMatch
  else if tok &&& 0xCC = 0x4C then .DataAddrMatch
  else if tok &&& 0xC4 = 0x84 then .DataValMatch
  else .DataValMatch

/-- `DataTrace::matches`. -/
def dataTraceMatches (tok : Nat) (i : ITMInternal) :
    ITMInternal × ITMSt × Option ITMFrame :=
  (i, ITMSt.DataTrace ((tok >>> 4) &&& 3) (if tok &&& 3 = 3 then 4 else tok &&& 3)
    0 0 (dtTypeOf tok) (tok &&& 8 != 0), none)

/-- `Exception::matches`. -/
def exceptionMatches (_tok : Nat) (i : ITMInternal) :
    ITMInternal × ITMSt × Option ITMFrame :=
  (i, ITMSt.Exception 0 0 0, none)

/-- `Instrumentation::matches`. -/
def instrumentationMatches (tok : Nat) (i : ITMInternal) :
    ITMInternal × ITMSt × Option ITMFrame :=
  let i2 := { i with stats := { i.stats with instrupkts := i.stats.instrupkts + 1 } }
  (i2, ITMSt.Instrumentation (if tok &&& 3 = 3 then 4 else tok &&& 3) 0
    ((tok >>> 3) &&& 0x1F) 0, none)

/-- `PCSample::matches`. -/
def pcSampleMatches (tok : Nat) (i : ITMInternal) :
    ITMInternal × ITMSt × Option ITMFrame :=
  (i, ITMSt.PCSample (if tok &&& 3 = 3 then 4 else tok &&& 3) 0 0, none)

/-- `PMUOverflow::matches`. -/
def pmuOverflowMatches (_tok : Nat) (i : ITMInternal) :
    ITMInternal × ITMSt × Option ITMFrame :=
  (i, ITMSt.PMUOverflow, none)

/-- `Idle::token`: the bit-pattern dispatch table of section F1.1.2, with the
rows in exactly the order of the source (`bitmatch` evaluates in order). -/
def idleToken (tok : Nat) (i : ITMInternal) :
    ITMInternal × ITMSt × Option ITMFrame :=
  if tok = 0x00 then (i, .Idle, none)
  else if tok = 0x70 then overflowMatches tok i
  else if tok = 0x94 then gts1Matches tok i
  else if tok = 0xB4 then gts2Matches tok i
  else if tok &&& 0x8F = 0x00 then ltsMatches tok i
  else if tok &&& 0xCF = 0xC0 then ltsMatches tok i
  else if tok &&& 0x0B = 0x08 then xtnMatches tok i
  else if tok = 0x05 then eventMatches tok i
  else if tok &&& 0x03 = 0x00 then
    ({ i with stats := { i.stats with noise := i.stats.noise + 1 } }, .Idle, none)
  else if tok &&& 0xC4 = 0x44 then dataTraceMatches tok i
  else if tok = 0x0E then exceptionMatches tok i
  else if tok &&& 0xC4 = 0x84 then dataTraceMatches tok i
  else if tok &&& 0x04 = 0x00 then instrumentationMatches tok i
  else if tok &&& 0xFD = 0x15 then pcSampleMatches tok i
  else if tok = 0x1D then pmuOverflowMatches tok i
  else ({ i with stats := { i.stats with noise := i.stats.noise + 1 } }, .Idle, none)

/-- `Instrumentation::token`. -/
def instrumentationToken (target count addr data : Nat) (tok : Nat) (i : ITMInternal) :
    ITMInternal × ITMSt × Option ITMFrame :=
  let p := if count ≤ 4 then
      (data ||| ((tok <<< (8 * count)) % 4294967296), count + 1)
    else (data, count)
  if p.2 = target then
    (i, .Idle, some (.Instrumentation ((addr + i.page_register) % 256) p.1 target))
  else
    (i, ITMSt.Instrumentation target p.2 addr p.1, none)

/-- `Xtn::token`. -/
def xtnToken (ex : Nat) (source : Bool) (bitcount count : Nat) (tok : Nat)
    (i : ITMInternal) : ITMInternal × ITMSt × Option ITMFrame :=
  let p :=
    if count ≤ 4 then
      if count < 4 then
        (ex ||| (((tok &&& 0x7F) <<< bitcount) % 4294967296), count + 1, bitcount + 7)
      else
        (ex ||| ((tok <<< bitcount) % 4294967296), count + 1, bitcount + 7)
    else (ex, count, bitcount)
  if tok &&& 0x80 = 0 then
    (i, .Idle, some (.Xtn source p.2.1 p.1))
  else
    (i, ITMSt.Xtn p.1 source p.2.2 p.2.1, none)

/-- `Lts::token`. -/
def ltsToken (count ttypen ts : Nat) (tok : Nat) (i : ITMInternal) :
    ITMInternal × ITMSt × Option ITMFrame :=
  let p := if count < 4 then
      (ts ||| ((tok &&& 0x7F) <<< (7 * count)), count + 1)
    else (ts, count)
  if tok &&& 0x80 = 0 then
    (i, .Idle, some (.Timestamp
      (if ttypen = 0 then TSType.Sync
       else if ttypen = 1 then TSType.TSDelayed
       else if ttypen = 2 then TSType.DataDelayed
       else TSType.BothDelayed) p.1))
  else
    (i, ITMSt.Lts p.2 ttypen p.1, none)

/-- `Gts2::token`: full-replace accumulation of 7-bit groups. -/
def gts2Token (count gts : Nat) (tok : Nat) (i : ITMInternal) :
    ITMInternal × ITMSt × Option ITMFrame :=
  let p := if count < 7 then
      (gts ||| ((tok &&& 0x7F) <<< (7 * count)), count + 1)
    else (gts, count)
  if tok &&& 0x80 = 0 then
    ({ i with gtimestamp := p.1 }, .Idle, some (.Globaltimestamp false p.1))
  else
    (i, ITMSt.Gts2 p.2 p.1, none)

/-- Bitwise complement within a `u64` (the source's `!mask`). -/
def not64 (m : Nat) : Nat := 18446744073709551615 - m

/-- `Gts1::token`: patched update of the prior global timestamp; the fourth
byte carries 5 bits and the wrap flag. -/
def gts1Token (count gts : Nat) (wrap : Bool) (tok : Nat) (i : ITMInternal) :
    ITMInternal × ITMSt × Option ITMFrame :=
  let p :=
    if count ≤ 3 then
      let shift := 7 * count
      let count2 := count + 1
      if count2 = 4 then
        ((gts &&& not64 (0x1F <<< shift)) ||| ((tok &&& 0x1F) <<< shift), count2,
          ((tok &&& 0x40) != 0 : Bool))
      else
        ((gts &&& not64 (0x7F <<< shift)) ||| ((tok &&& 0x7F) <<< shift), count2, wrap)
    else (gts, count, wrap)
  if tok &&& 0x80 = 0 then
    ({ i with gtimestamp := p.1 }, .Idle, some (.Globaltimestamp p.2.2 p.1))
  else
    (i, ITMSt.Gts1 p.2.1 p.1 p.2.2, none)

/-- `Exception::token`: two payload bytes then emission. -/
def exceptionToken (no count event : Nat) (tok : Nat) (i : ITMInternal) :
    ITMInternal × ITMSt × Option ITMFrame :=
  let count2 := count + 1
  if count2 = 1 then
    (i, ITMSt.Exception tok count2 event, none)
  else if count2 = 2 then
    (i, .Idle, some (.Exception (no ||| ((tok &&& 1) <<< 8))
      (if (tok >>> 4) &&& 3 = 1 then ExceptionEvent.Entry
       else if (tok >>> 4) &&& 3 = 2 then ExceptionEvent.Exit
       else if (tok >>> 4) &&& 3 = 3 then ExceptionEvent.Returned
       else ExceptionEvent.Unknown)))
  else
    (i, ITMSt.Exception no count2 event, none)

/-- `DataTrace::token`: little-endian accumulation, the `Match`/`len = 1`
short circuit, and the four emission variants. -/
def dataTraceToken (index len count addr : Nat) (dt_type : DataMatchType)
    (wnr : Bool) (tok : Nat) (i : ITMInternal) :
    ITMInternal × ITMSt × Option ITMFrame :=
  let addr2 := addr ||| ((tok <<< (count * 8)) % 4294967296)
  let count2 := count + 1
  if dt_type = DataMatchType.Match ∧ len = 1 ∧ tok &&& 1 = 1 then
    (i, .Idle, some (.DataTraceMatch index))
  else if count2 = len then
    match dt_type with
    | .DataValMatch => (i, .Idle, some (.DataTraceValue index addr2 len wnr))
    | .Match => (i, .Idle, some (.DataTracePC index addr2 len))
    | .PCMatch => (i, .Idle, some (.DataTracePC index addr2 len))
    | .DataAddrMatch => (i, .Idle, some (.DataTraceAddr index addr2 len))
  else
    (i, ITMSt.DataTrace index len count2 addr2 dt_type wnr, none)

/-- `PCSample::token`: `len = 1` is the sleep form, otherwise accumulate. -/
def pcSampleToken (len count addr : Nat) (tok : Nat) (i : ITMInternal) :
    ITMInternal × ITMSt × Option ITMFrame :=
  if len = 1 then
    (i, .Idle, some (.PCSleep (tok == 0xFF)))
  else
    let addr2 := addr ||| ((tok <<< (count * 8)) % 4294967296)
    let count2 := count + 1
    if count2 = len then
      (i, .Idle, some (.PCSample addr2))
    else
      (i, ITMSt.PCSample len count2 addr2, none)

/-- `Event::token`: the six wrap flags. -/
def eventToken (tok : Nat) (i : ITMInternal) :
    ITMInternal × ITMSt × Option ITMFrame :=
  (i, ITMSt.Idle, some (.EventC (tok &&& 1 != 0) (tok &&& 2 != 0) (tok &&& 4 != 0)
    (tok &&& 8 != 0) (tok &&& 16 != 0) (tok &&& 32 != 0)))

/-- `PMUOverflow::token`. -/
def pmuOverflowToken (tok : Nat) (i : ITMInternal) :
    ITMInternal × ITMSt × Option ITMFrame :=
  (i, ITMSt.Idle, some (.PMUOverflow tok))

/-- Per-state dispatch of `State::token`. -/
def stateToken : ITMSt → Nat → ITMInternal → ITMInternal × ITMSt × Option ITMFrame
  | .Unsynced, _, i => (i, .Unsynced, none)
  | .Idle, tok, i => idleToken tok i
  | .Instrumentation t c a d, tok, i => instrumentationToken t c a d tok i
  | .Xtn ex src bc c, tok, i => xtnToken ex src bc c tok i
  | .Lts c ty ts, tok, i => ltsToken c ty ts tok i
  | .Gts2 c g, tok, i => gts2Token c g tok i
  | .Gts1 c g w, tok, i => gts1Token c g w tok i
  | .Exception no c ev, tok, i => exceptionToken no c ev tok i
  | .DataTrace ix l c a dt w, tok, i => dataTraceToken ix l c a dt w tok i
  | .PCSample l c a, tok, i => pcSampleToken l c a tok i
  | .Event, tok, i => eventToken tok i
  | .PMUOverflow, tok, i => pmuOverflowToken tok i

/-- Zeroed statistics. -/
def ITMStats.zero : ITMStats := ⟨0, 0, 0, 0, 0, 0, 0, 0⟩

/-- Fresh internal data. -/
def ITMInternal.init : ITMInternal := ⟨0, 0, 0, 0, 0, ITMStats.zero⟩

/-- The stateful ITM decoder (struct `ITMDecoder`). -/
structure ITMDecoder where
  state : ITMSt
  i : ITMInternal
deriving DecidableEq, Repr

/-- `ITMDecoder::new`: starts unsynchronised with zeroed state. -/
def ITMDecoder.new : ITMDecoder := ⟨.Unsynced, ITMInternal.init⟩

/-- `ITMDecoder::token`: roll the byte into `last_bytes` (for a byte `tok`,
`last_bytes << 8 | tok` on `u64` equals `(last_bytes * 256 + tok) % 2^64`),
check the two sync patterns, then dispatch to the current state. -/
def ITMDecoder.token (d : ITMDecoder) (tok : Nat) : ITMDecoder × Option ITMFrame :=
  let i1 := { d.i with
    last_bytes := (d.i.last_bytes * 256 + tok) % 18446744073709551616
    stats := { d.i.stats with inbytestotal := d.i.stats.inbytestotal + 1 } }
  if i1.last_bytes &&& TPIU_SYNCMASK = TPIU_SYNCPATTERN then
    let s2 := { i1.stats with
      tpiusync := i1.stats.tpiusync + 1
      inpackets := i1.stats.inpackets + 1 }
    (⟨.Unsynced, { i1 with stats := s2 }⟩, some (.TPIUSync s2.tpiusync))
  else if i1.last_bytes &&& ITM_SYNCMASK = ITM_SYNCPATTERN then
    let s2 := { i1.stats with
      itmsync := i1.stats.itmsync + 1
      inpackets := i1.stats.inpackets + 1 }
    (⟨.Idle, { i1 with page_register := 0, stats := s2 }⟩, some (.Sync s2.itmsync))
  else
    let r := stateToken d.state tok i1
    let i2 := if r.2.2.isSome then
        { r.1 with stats := { r.1.stats with inpackets := r.1.stats.inpackets + 1 } }
      else r.1
    (⟨r.2.1, i2⟩, r.2.2)

/-- Feed a whole byte list through the decoder, collecting emitted frames. -/
def itmRun (d : ITMDecoder) : List Nat → ITMDecoder × List ITMFrame
  | [] => (d, [])
  | b :: rest =>
      let r := d.token b
      let q := itmRun r.1 rest
      (q.1, r.2.toList ++ q.2)

/-- `ITMDecoder::get_frame`: pull bytes until one frame is emitted or the
iterator is exhausted (`ShortData`). -/
def ITMDecoder.get_frame (d : ITMDecoder) :
    List Nat → Except ITMError (ITMFrame × ITMDecoder × List Nat)
  | [] => .error .ShortData
  | b :: rest =>
      let r := d.token b
      match r.2 with
      | some f => .ok (f, r.1, rest)
      | none => ITMDecoder.get_frame r.1 rest

/-! ### Reachability invariant

Every state reachable from a fresh decoder on byte input satisfies `decInv`:
the accumulator lengths produced by `Idle` dispatch are in `{1, 2, 4}` (an
arithmetic rendering: positive, at most 4, not 3), counts stay below their
targets, the `Xtn` bit cursor tracks its count, the exception count stays at
most 1, the page register is a multiple of 32 at most 224, and the rolling
byte window fits in 64 bits. -/

/-- State part of the reachability invariant. -/
def stInv : ITMSt → Prop
  | .Instrumentation t c a _ => (0 < t ∧ t ≤ 4 ∧ t ≠ 3) ∧ c < t ∧ a ≤ 31
  | .Xtn _ _ bc c => bc = 3 + 7 * c
  | .Exception _ c _ => c ≤ 1
  | .DataTrace _ l c _ _ _ => (0 < l ∧ l ≤ 4 ∧ l ≠ 3) ∧ c < l
  | .PCSample l c _ => (0 < l ∧ l ≤ 4 ∧ l ≠ 3) ∧ c < l
  | _ => True

instance stInv.instDecidable (s : ITMSt) : Decidable (stInv s) := by
  cases s <;> simp only [stInv] <;> infer_instance

/-- Internal part of the reachability invariant. -/
def internalInv (i : ITMInternal) : Prop :=
  i.page_register ≤ 224 ∧ i.page_register % 32 = 0 ∧
  i.last_bytes < 18446744073709551616

/-- The full reachability invariant. -/
def decInv (d : ITMDecoder) : Prop := stInv d.state ∧ internalInv d.i

/-- Facts about each `matches` function: invariant of the created state,
page-register effect, and `last_bytes` preservation. -/
theorem overflowMatches_facts (tok : Nat) (i : ITMInternal) :
    stInv (overflowMatches tok i).2.1 ∧
    (overflowMatches tok i).1.page_register = i.page_register ∧
    (overflowMatches tok i).1.last_bytes = i.last_bytes := by
  simp [overflowMatches, stInv]

theorem gts1Matches_facts (tok : Nat) (i : ITMInternal) :
    stInv (gts1Matches tok i).2.1 ∧
    (gts1Matches tok i).1.page_register = i.page_register ∧
    (gts1Matches tok i).1.last_bytes = i.last_bytes := by
  simp [gts1Matches, stInv]

theorem gts2Matches_facts (tok : Nat) (i : ITMInternal) :
    stInv (gts2Matches tok i).2.1 ∧
    (gts2Matches tok i).1.page_register = i.page_register ∧
    (gts2Matches tok i).1.last_bytes = i.last_bytes := by
  simp [gts2Matches, stInv]

theorem ltsMatches_facts (tok : Nat) (i : ITMInternal) :
    stInv (ltsMatches tok i).2.1 ∧
    (ltsMatches tok i).1.page_register = i.page_register ∧
    (ltsMatches tok i).1.last_bytes = i.last_bytes := by
  unfold ltsMatches
  split_ifs <;> simp [stInv]

theorem xtnMatches_facts (tok : Nat) (i : ITMInternal) :
    stInv (xtnMatches tok i).2.1 ∧
    ((xtnMatches tok i).1.page_register = i.page_register ∨
      (xtnMatches tok i).1.page_register = 32 * ((tok >>> 4) &&& 7)) ∧
    (xtnMatches tok i).1.last_bytes = i.last_bytes := by
  unfold xtnMatches
  split_ifs <;> simp [stInv]

theorem eventMatches_facts (tok : Nat) (i : ITMInternal) :
    stInv (eventMatches tok i).2.1 ∧
    (eventMatches tok i).1.page_register = i.page_register ∧
    (eventMatches tok i).1.last_bytes = i.last_bytes := by
  simp [eventMatches, stInv]

theorem exceptionMatches_facts (tok : Nat) (i : ITMInternal) :
    stInv (exceptionMatches tok i).2.1 ∧
    (exceptionMatches tok i).1.page_register = i.page_register ∧
    (exceptionMatches tok i).1.last_bytes = i.last_bytes := by
  simp [exceptionMatches, stInv]

theorem pmuOverflowMatches_facts (tok : Nat) (i : ITMInternal) :
    stInv (pmuOverflowMatches tok i).2.1 ∧
    (pmuOverflowMatches tok i).1.page_register = i.page_register ∧
    (pmuOverflowMatches tok i).1.last_bytes = i.last_bytes := by
  simp [pmuOverflowMatches, stInv]

theorem dataTraceMatches_facts (tok : Nat) (i : ITMInternal) (h : ¬tok &&& 3 = 0) :
    stInv (dataTraceMatches tok i).2.1 ∧
    (dataTraceMatches tok i).1.page_register = i.page_register ∧
    (dataTraceMatches tok i).1.last_bytes = i.last_bytes := by
  have ha3 : tok &&& 3 ≤ 3 := Nat.and_le_right
  unfold dataTraceMatches
  refine ⟨?_, rfl, rfl⟩
  simp only [stInv]
  split_ifs <;> omega

theorem instrumentationMatches_facts (tok : Nat) (i : ITMInternal) (h : ¬tok &&& 3 = 0) :
    stInv (instrumentationMatches tok i).2.1 ∧
    (instrumentationMatches tok i).1.page_register = i.page_register ∧
    (instrumentationMatches tok i).1.last_bytes = i.last_bytes := by
  have ha3 : tok &&& 3 ≤ 3 := Nat.and_le_right
  have ha31 : (tok >>> 3) &&& 31 ≤ 31 := Nat.and_le_right
  unfold instrumentationMatches
  refine ⟨?_, rfl, rfl⟩
  simp only [stInv]
  split_ifs <;> omega

theorem pcSampleMatches_facts (tok : Nat) (i : ITMInternal) (h : ¬tok &&& 3 = 0) :
    stInv (pcSampleMatches tok i).2.1 ∧
    (pcSampleMatches tok i).1.page_register = i.page_register ∧
    (pcSampleMatches tok i).1.last_bytes = i.last_bytes := by
  have ha3 : tok &&& 3 ≤ 3 := Nat.and_le_right
  unfold pcSampleMatches
  refine ⟨?_, rfl, rfl⟩
  simp only [stInv]
  split_ifs <;> omega

/-- Facts needed of one dispatch result: invariant of the successor state,
page-register effect, and `last_bytes` preservation. -/
@[reducible]
def stepOK (tok : Nat) (i : ITMInternal) (r : ITMInternal × ITMSt × Option ITMFrame) : Prop :=
  stInv r.2.1 ∧
  (r.1.page_register = i.page_register ∨
    r.1.page_register = 32 * ((tok >>> 4) &&& 7)) ∧
  r.1.last_bytes = i.last_bytes

/-- `Idle` dispatch only creates states satisfying the invariant, changes the
page register only to `32 * ((tok >> 4) & 7)`, and preserves `last_bytes`. -/
theorem idleToken_facts (tok : Nat) (i : ITMInternal) :
    stepOK tok i (idleToken tok i) := by
  unfold idleToken
  by_cases h1 : tok = 0x00
  · rw [if_pos h1]
    exact ⟨trivial, Or.inl rfl, rfl⟩
  rw [if_neg h1]
  by_cases h2 : tok = 0x70
  · rw [if_pos h2]
    obtain ⟨a, b, c⟩ := overflowMatches_facts tok i
    exact ⟨a, Or.inl b, c⟩
  rw [if_neg h2]
  by_cases h3 : tok = 0x94
  · rw [if_pos h3]
    obtain ⟨a, b, c⟩ := gts1Matches_facts tok i
    exact ⟨a, Or.inl b, c⟩
  rw [if_neg h3]
  by_cases h4 : tok = 0xB4
  · rw [if_pos h4]
    obtain ⟨a, b, c⟩ := gts2Matches_facts tok i
    exact ⟨a, Or.inl b, c⟩
  rw [if_neg h4]
  by_cases h5 : tok &&& 0x8F = 0x00
  · rw [if_pos h5]
    obtain ⟨a, b, c⟩ := ltsMatches_facts tok i
    exact ⟨a, Or.inl b, c⟩
  rw [if_neg h5]
  by_cases h6 : tok &&& 0xCF = 0xC0
  · rw [if_pos h6]
    obtain ⟨a, b, c⟩ := ltsMatches_facts tok i
    exact ⟨a, Or.inl b, c⟩
  rw [if_neg h6]
  by_cases h7 : tok &&& 0x0B = 0x08
  · rw [if_pos h7]
    obtain ⟨a, b, c⟩ := xtnMatches_facts tok i
    exact ⟨a, b, c⟩
  rw [if_neg h7]
  by_cases h8 : tok = 0x05
  · rw [if_pos h8]
    obtain ⟨a, b, c⟩ := eventMatches_facts tok i
    exact ⟨a, Or.inl b, c⟩
  rw [if_neg h8]
  by_cases h9 : tok &&& 0x03 = 0x00
  · rw [if_pos h9]
    exact ⟨trivial, Or.inl rfl, rfl⟩
  rw [if_neg h9]
  by_cases h10 : tok &&& 0xC4 = 0x44
  · rw [if_pos h10]
    obtain ⟨a, b, c⟩ := dataTraceMatches_facts tok i h9
    exact ⟨a, Or.inl b, c⟩
  rw [if_neg h10]
  by_cases h11 : tok = 0x0E
  · rw [if_pos h11]
    obtain ⟨a, b, c⟩ := exceptionMatches_facts tok i
    exact ⟨a, Or.inl b, c⟩
  rw [if_neg h11]
  by_cases h12 : tok &&& 0xC4 = 0x84
  · rw [if_pos h12]
    obtain ⟨a, b, c⟩ := dataTraceMatches_facts tok i h9
    exact ⟨a, Or.inl b, c⟩
  rw [if_neg h12]
  by_cases h13 : tok &&& 0x04 = 0x00
  · rw [if_pos h13]
    obtain ⟨a, b, c⟩ := instrumentationMatches_facts tok i h9
    exact ⟨a, Or.inl b, c⟩
  rw [if_neg h13]
  by_cases h14 : tok &&& 0xFD = 0x15
  · rw [if_pos h14]
    obtain ⟨a, b, c⟩ := pcSampleMatches_facts tok i h9
    exact ⟨a, Or.inl b, c⟩
  rw [if_neg h14]
  by_cases h15 : tok = 0x1D
  · rw [if_pos h15]
    obtain ⟨a, b, c⟩ := pmuOverflowMatches_facts tok i
    exact ⟨a, Or.inl b, c⟩
  rw [if_neg h15]
  exact ⟨trivial, Or.inl rfl, rfl⟩

/-- Per-state facts for every `State::token` implementation: the invariant is
preserved, the page register is changed only by the `Idle` `Xtn` short form,
and `last_bytes` is untouched. -/
theorem stateToken_facts (s : ITMSt) (tok : Nat) (i : ITMInternal) (h : stInv s) :
    stepOK tok i (stateToken s tok i) := by
  cases s with
  | Unsynced => exact ⟨trivial, Or.inl rfl, rfl⟩
  | Idle => exact idleToken_facts tok i
  | Instrumentation t c a d =>
      simp only [stInv] at h
      simp only [stateToken]
      unfold instrumentationToken
      dsimp only
      split_ifs <;> refine ⟨?_, Or.inl rfl, rfl⟩ <;> simp only [stInv] <;> omega
  | Xtn ex src bc c =>
      simp only [stInv] at h
      simp only [stateToken]
      unfold xtnToken
      dsimp only
      split_ifs <;> refine ⟨?_, Or.inl rfl, rfl⟩ <;> simp only [stInv] <;> omega
  | Lts c ty ts =>
      simp only [stateToken]
      unfold ltsToken
      dsimp only
      split_ifs <;> exact ⟨trivial, Or.inl rfl, rfl⟩
  | Gts2 c g =>
      simp only [stateToken]
      unfold gts2Token
      dsimp only
      split_ifs <;> exact ⟨trivial, Or.inl rfl, rfl⟩
  | Gts1 c g w =>
      simp only [stateToken]
      unfold gts1Token
      dsimp only
      split_ifs <;> exact ⟨trivial, Or.inl rfl, rfl⟩
  | Exception no c ev =>
      simp only [stInv] at h
      simp only [stateToken]
      unfold exceptionToken
      dsimp only
      split_ifs <;> refine ⟨?_, Or.inl rfl, rfl⟩ <;> simp only [stInv] <;> omega
  | DataTrace ix l c a dt w =>
      simp only [stInv] at h
      simp only [stateToken]
      cases dt <;> unfold dataTraceToken <;> dsimp only <;> split_ifs <;>
        refine ⟨?_, Or.inl rfl, rfl⟩ <;> simp only [stInv] <;> omega
  | PCSample l c a =>
      simp only [stInv] at h
      simp only [stateToken]
      unfold pcSampleToken
      dsimp only
      split_ifs <;> refine ⟨?_, Or.inl rfl, rfl⟩ <;> simp only [stInv] <;> omega
  | Event =>
      simp only [stateToken]
      unfold eventToken
      exact ⟨trivial, Or.inl rfl, rfl⟩
  | PMUOverflow =>
      simp only [stateToken]
      unfold pmuOverflowToken
      exact ⟨trivial, Or.inl rfl, rfl⟩

/-- The 32-bit mask is reduction mod `2^32`. -/
theorem and_mask32 (x : Nat) : x &&& 0xFFFFFFFF = x % 4294967296 := by
  have h := Nat.and_pow_two_sub_one_eq_mod x 32
  norm_num at h
  exact h

/-- The 48-bit mask is reduction mod `2^48`. -/
theorem and_mask48 (x : Nat) : x &&& 0xFFFFFFFFFFFF = x % 281474976710656 := by
  have h := Nat.and_pow_two_sub_one_eq_mod x 48
  norm_num at h
  exact h

/-- Dispatching one token preserves both invariant parts. -/
theorem token_inv_dispatch (s : ITMSt) (tok : Nat) (j : ITMInternal)
    (hst : stInv s) (hpr1 : j.page_register ≤ 224) (hpr2 : j.page_register % 32 = 0)
    (hlbj : j.last_bytes < 18446744073709551616) :
    internalInv (stateToken s tok j).1 ∧ stInv (stateToken s tok j).2.1 := by
  obtain ⟨ha, hb, hc⟩ := stateToken_facts s tok j hst
  have hk : (tok >>> 4) &&& 7 ≤ 7 := Nat.and_le_right
  refine ⟨⟨?_, ?_, ?_⟩, ha⟩
  · rcases hb with hb | hb <;> rw [hb] <;> omega
  · rcases hb with hb | hb <;> rw [hb] <;> omega
  · rw [hc]; exact hlbj

/-- One decoder step preserves the reachability invariant. -/
theorem token_inv (d : ITMDecoder) (tok : Nat) (h : decInv d) :
    decInv (d.token tok).1 := by
  have hst := h.1
  have hpr1 := h.2.1
  have hpr2 := h.2.2.1
  have hlb := h.2.2.2
  unfold ITMDecoder.token
  dsimp only
  split_ifs with h1 h2 h3
  · exact ⟨trivial, hpr1, hpr2, Nat.mod_lt _ (by norm_num)⟩
  · exact ⟨trivial, by norm_num, by norm_num, Nat.mod_lt _ (by norm_num)⟩
  · have hd := token_inv_dispatch d.state tok
      { d.i with
        last_bytes := (d.i.last_bytes * 256 + tok) % 18446744073709551616
        stats := { d.i.stats with inbytestotal := d.i.stats.inbytestotal + 1 } }
      hst hpr1 hpr2 (Nat.mod_lt _ (by norm_num))
    exact ⟨hd.2, hd.1⟩
  · have hd := token_inv_dispatch d.state tok
      { d.i with
        last_bytes := (d.i.last_bytes * 256 + tok) % 18446744073709551616
        stats := { d.i.stats with inbytestotal := d.i.stats.inbytestotal + 1 } }
      hst hpr1 hpr2 (Nat.mod_lt _ (by norm_num))
    exact ⟨hd.2, hd.1⟩

/-- The invariant holds along any run. -/
theorem itmRun_inv (input : List Nat) : ∀ d : ITMDecoder, decInv d →
    decInv (itmRun d input).1 := by
  induction input with
  | nil => intro d h; exact h
  | cons b rest ih =>
      intro d h
      simp only [itmRun]
      exact ih _ (token_inv d b h)

/-- The fresh decoder satisfies the invariant. -/
theorem new_inv : decInv ITMDecoder.new :=
  ⟨trivial, by decide, by decide, by decide⟩

/-- C5: for every decoder state and every finite byte sequence, `get_frame`
returns either one complete frame (with the rest of the input) or the error
`ShortData`, never any other error; and it returns `ShortData` exactly when
the whole input is consumed without an emission. -/
theorem c5_get_frame_total (d : ITMDecoder) (l : List Nat) :
    ((∃ f d2 r, ITMDecoder.get_frame d l = .ok (f, d2, r)) ∨
      ITMDecoder.get_frame d l = .error .ShortData) ∧
    (ITMDecoder.get_frame d l = .error .ShortData ↔ (itmRun d l).2 = []) := by
  induction l generalizing d with
  | nil => exact ⟨Or.inr rfl, by simp [ITMDecoder.get_frame, itmRun]⟩
  | cons b rest ih =>
      rcases hr : (d.token b).2 with _ | f
      · have h2 := ih (d.token b).1
        constructor
        · rcases h2.1 with ⟨f, d2, r, he⟩ | he
          · exact Or.inl ⟨f, d2, r, by simp [ITMDecoder.get_frame, hr, he]⟩
          · exact Or.inr (by simp [ITMDecoder.get_frame, hr, he])
        · simp only [ITMDecoder.get_frame, itmRun, hr]
          simpa using h2.2
      · constructor
        · exact Or.inl ⟨f, (d.token b).1, rest, by simp [ITMDecoder.get_frame, hr]⟩
        · simp [ITMDecoder.get_frame, itmRun, hr]

/-- C2 counterexample: the byte `0x44` matches `01xx_x1xx` and none of the
earlier rows of the specified dispatch table, yet from `Idle` the decoder
counts it as noise (the source has an extra `????_??00` noise row before the
data-trace rows) instead of entering `DataTrace`. -/
theorem c2_counterexample :
    (0x44 &&& 0xC4 = 0x44) ∧
    (0x44 : Nat) ≠ 0x00 ∧ (0x44 : Nat) ≠ 0x70 ∧ (0x44 : Nat) ≠ 0x94 ∧
    (0x44 : Nat) ≠ 0xB4 ∧ ¬(0x44 &&& 0x8F = 0x00) ∧ ¬(0x44 &&& 0xCF = 0xC0) ∧
    ¬(0x44 &&& 0x0B = 0x08) ∧ (0x44 : Nat) ≠ 0x05 ∧
    (stateToken .Idle 0x44 ITMInternal.init).2.1 = ITMSt.Idle ∧
    (stateToken .Idle 0x44 ITMInternal.init).1.stats.noise =
      ITMInternal.init.stats.noise + 1 := by
  decide

/-- C2 (amended): a first byte matching `01xx_x1xx` or `10xx_x1xx` that
matches no earlier row of the table and whose size field `tok & 3` is nonzero
enters the `DataTrace` state (internal data untouched, so nothing is counted
as noise); bytes with size field `00` fall to the source's extra noise row. -/
theorem c2_data_trace_dispatch (tok : Nat) (i : ITMInternal)
    (hp : tok &&& 0xC4 = 0x44 ∨ tok &&& 0xC4 = 0x84)
    (h0 : tok ≠ 0x00) (h70 : tok ≠ 0x70) (h94 : tok ≠ 0x94) (hB4 : tok ≠ 0xB4)
    (hlts1 : ¬(tok &&& 0x8F = 0x00)) (hlts2 : ¬(tok &&& 0xCF = 0xC0))
    (hxtn : ¬(tok &&& 0x0B = 0x08)) (h05 : tok ≠ 0x05)
    (hsz : ¬(tok &&& 0x03 = 0x00)) :
    (stateToken .Idle tok i).2.1 =
      ITMSt.DataTrace ((tok >>> 4) &&& 3) (if tok &&& 3 = 3 then 4 else tok &&& 3)
        0 0 (dtTypeOf tok) (tok &&& 8 != 0) ∧
    (stateToken .Idle tok i).1 = i := by
  simp only [stateToken]
  unfold idleToken
  rw [if_neg h0, if_neg h70, if_neg h94, if_neg hB4, if_neg hlts1, if_neg hlts2,
    if_neg hxtn, if_neg h05, if_neg hsz]
  rcases hp with hp | hp
  · rw [if_pos hp]
    exact ⟨rfl, rfl⟩
  · rw [if_neg (by rw [hp]; decide)]
    rw [if_neg (fun he => by rw [he] at hp; revert hp; decide)]
    rw [if_pos hp]
    exact ⟨rfl, rfl⟩

/-- `Idle` dispatch never emits an `Instrumentation` frame: the only rows
that emit at all produce `Overflow`, `Timestamp` or `Xtn` frames. -/
theorem idleToken_no_instr (tok : Nat) (j : ITMInternal) (a dta l : Nat) :
    (idleToken tok j).2.2 ≠ some (ITMFrame.Instrumentation a dta l) := by
  unfold idleToken
  by_cases h1 : tok = 0x00
  · rw [if_pos h1]; simp
  rw [if_neg h1]
  by_cases h2 : tok = 0x70
  · rw [if_pos h2]; simp [overflowMatches]
  rw [if_neg h2]
  by_cases h3 : tok = 0x94
  · rw [if_pos h3]; simp [gts1Matches]
  rw [if_neg h3]
  by_cases h4 : tok = 0xB4
  · rw [if_pos h4]; simp [gts2Matches]
  rw [if_neg h4]
  by_cases h5 : tok &&& 0x8F = 0x00
  · rw [if_pos h5]; unfold ltsMatches; dsimp only; split_ifs <;> simp
  rw [if_neg h5]
  by_cases h6 : tok &&& 0xCF = 0xC0
  · rw [if_pos h6]; unfold ltsMatches; dsimp only; split_ifs <;> simp
  rw [if_neg h6]
  by_cases h7 : tok &&& 0x0B = 0x08
  · rw [if_pos h7]; unfold xtnMatches; split_ifs <;> simp
  rw [if_neg h7]
  by_cases h8 : tok = 0x05
  · rw [if_pos h8]; simp [eventMatches]
  rw [if_neg h8]
  by_cases h9 : tok &&& 0x03 = 0x00
  · rw [if_pos h9]; simp
  rw [if_neg h9]
  by_cases h10 : tok &&& 0xC4 = 0x44
  · rw [if_pos h10]; simp [dataTraceMatches]
  rw [if_neg h10]
  by_cases h11 : tok = 0x0E
  · rw [if_pos h11]; simp [exceptionMatches]
  rw [if_neg h11]
  by_cases h12 : tok &&& 0xC4 = 0x84
  · rw [if_pos h12]; simp [dataTraceMatches]
  rw [if_neg h12]
  by_cases h13 : tok &&& 0x04 = 0x00
  · rw [if_pos h13]; simp [instrumentationMatches]
  rw [if_neg h13]
  by_cases h14 : tok &&& 0xFD = 0x15
  · rw [if_pos h14]; simp [pcSampleMatches]
  rw [if_neg h14]
  by_cases h15 : tok = 0x1D
  · rw [if_pos h15]; simp [pmuOverflowMatches]
  rw [if_neg h15]
  simp

/-- The only `State::token` implementation that can emit an `Instrumentation`
frame is the `Instrumentation` state itself, and the emitted address is the
state's stored 5-bit header address plus the page register, reduced mod 256
(the stored address is at most 31 under the invariant). -/
theorem stateToken_instr (s : ITMSt) (tok : Nat) (j : ITMInternal)
    (hst : stInv s) (a dta l : Nat)
    (he : (stateToken s tok j).2.2 = some (ITMFrame.Instrumentation a dta l)) :
    ∃ t c a5 d0, s = ITMSt.Instrumentation t c a5 d0 ∧ a5 ≤ 31 ∧
      a = (a5 + j.page_register) % 256 := by
  cases s with
  | Unsynced => simp [stateToken] at he
  | Idle =>
      simp only [stateToken] at he
      exact absurd he (idleToken_no_instr tok j a dta l)
  | Instrumentation t c a0 d0 =>
      simp only [stInv] at hst
      simp only [stateToken] at he
      unfold instrumentationToken at he
      dsimp only at he
      split_ifs at he with hp hq hr
      all_goals try simp at he
      all_goals obtain ⟨h1', h2', h3'⟩ := he
      all_goals exact ⟨t, c, a0, d0, rfl, by omega, by omega⟩
  | Xtn ex src bc c =>
      simp only [stateToken] at he
      unfold xtnToken at he
      dsimp only at he
      split_ifs at he <;> simp_all
  | Lts c ty ts =>
      simp only [stateToken] at he
      unfold ltsToken at he
      dsimp only at he
      split_ifs at he <;> simp_all
  | Gts2 c g =>
      simp only [stateToken] at he
      unfold gts2Token at he
      dsimp only at he
      split_ifs at he <;> simp_all
  | Gts1 c g w =>
      simp only [stateToken] at he
      unfold gts1Token at he
      dsimp only at he
      split_ifs at he <;> simp_all
  | Exception no c ev =>
      simp only [stateToken] at he
      unfold exceptionToken at he
      dsimp only at he
      split_ifs at he <;> simp_all
  | DataTrace ix dl c da dt w =>
      simp only [stateToken] at he
      unfold dataTraceToken at he
      dsimp only at he
      cases dt <;> split_ifs at he <;> simp_all
  | PCSample pl c pa =>
      simp only [stateToken] at he
      unfold pcSampleToken at he
      dsimp only at he
      split_ifs at he <;> simp_all
  | Event =>
      simp only [stateToken] at he
      unfold eventToken at he
      simp at he
  | PMUOverflow =>
      simp only [stateToken] at he
      unfold pmuOverflowToken at he
      simp at he

/-- If a decoder step under the invariant emits an `Instrumentation` frame,
the decoder was in the `Instrumentation` state, the emitted address is
exactly the state's stored 5-bit header address plus the current page
register, the page register is a multiple of 32 at most 224, and the sum
stays within `u8` (no wrap, so the `% 256` of the model is the identity). -/
theorem token_instr_src (d : ITMDecoder) (h : decInv d) (tok a dta l : Nat)
    (he : (d.token tok).2 = some (ITMFrame.Instrumentation a dta l)) :
    ∃ t c a5 d0, d.state = ITMSt.Instrumentation t c a5 d0 ∧ a5 ≤ 31 ∧
      d.i.page_register % 32 = 0 ∧ d.i.page_register ≤ 224 ∧
      a5 + d.i.page_register ≤ 255 ∧ a = a5 + d.i.page_register := by
  obtain ⟨s, di⟩ := d
  obtain ⟨hst, hpr1, hpr2, hlb⟩ := h
  have hprA : di.page_register ≤ 224 := hpr1
  have hprB : di.page_register % 32 = 0 := hpr2
  clear hpr1 hpr2 hlb
  unfold ITMDecoder.token at he
  dsimp only at he
  split_ifs at he with h1 h2 h3
  · simp at he
  · simp at he
  · have he2 : (stateToken s tok
        { di with
          last_bytes := (di.last_bytes * 256 + tok) % 18446744073709551616
          stats := { di.stats with inbytestotal := di.stats.inbytestotal + 1 } }).2.2 =
        some (ITMFrame.Instrumentation a dta l) := he
    obtain ⟨t, c, a5, d0, hshape, ha5, haeq⟩ := stateToken_instr s tok _ hst a dta l he2
    have haeq2 : a = (a5 + di.page_register) % 256 := haeq
    have hg1 : a5 + di.page_register ≤ 255 := by omega
    have hg2 : a = a5 + di.page_register := by omega
    exact ⟨t, c, a5, d0, hshape, ha5, hprB, hprA, hg1, hg2⟩
  · have he2 : (stateToken s tok
        { di with
          last_bytes := (di.last_bytes * 256 + tok) % 18446744073709551616
          stats := { di.stats with inbytestotal := di.stats.inbytestotal + 1 } }).2.2 =
        some (ITMFrame.Instrumentation a dta l) := he
    obtain ⟨t, c, a5, d0, hshape, ha5, haeq⟩ := stateToken_instr s tok _ hst a dta l he2
    have haeq2 : a = (a5 + di.page_register) % 256 := haeq
    have hg1 : a5 + di.page_register ≤ 255 := by omega
    have hg2 : a = a5 + di.page_register := by omega
    exact ⟨t, c, a5, d0, hshape, ha5, hprB, hprA, hg1, hg2⟩

/-- C6: whenever any reachable decoder (fresh instance, arbitrary prior
input) emits an `Instrumentation` frame on its next byte, the decoder was in
the `Instrumentation` state and the frame's address equals that state's
stored 5-bit header address (`(header >> 3) & 0x1F`, at most 31) plus the
current page register, which is a multiple of 32 in `{0, 32, ..., 224}`; the
sum is at most 255, so the source's `u8` addition never wraps.  In the
concrete scenario sync, `0x1C` (Xtn short form setting the page register to
32), `0x01 0x22`, the decoder emits `Instrumentation{addr: 32, data: 0x22,
len: 1}`. -/
theorem c6_instrumentation_addr :
    (∀ (prior : List Nat) (tok a dta l : Nat),
      ((itmRun ITMDecoder.new prior).1.token tok).2 =
        some (ITMFrame.Instrumentation a dta l) →
      ∃ t c a5 d0,
        (itmRun ITMDecoder.new prior).1.state = ITMSt.Instrumentation t c a5 d0 ∧
        a5 ≤ 31 ∧
        (itmRun ITMDecoder.new prior).1.i.page_register % 32 = 0 ∧
        (itmRun ITMDecoder.new prior).1.i.page_register ≤ 224 ∧
        a5 + (itmRun ITMDecoder.new prior).1.i.page_register ≤ 255 ∧
        a = a5 + (itmRun ITMDecoder.new prior).1.i.page_register) ∧
    (itmRun ITMDecoder.new [0, 0, 0, 0, 0, 0x80, 0x1C, 0x01, 0x22]).2 =
      [ITMFrame.Sync 1, ITMFrame.Instrumentation 32 0x22 1] := by
  constructor
  · intro prior tok a dta l he
    exact token_instr_src (itmRun ITMDecoder.new prior).1
      (itmRun_inv prior ITMDecoder.new new_inv) tok a dta l he
  · decide

/-- Witness for C6: the universal part applied to the scenario prefix
sync, `0x1C`, `0x01` and the final payload byte `0x22`, whose emission
hypothesis is evaluated concretely: the address 32 decomposes as stored
header address 0 plus page register 32. -/
theorem c6_instrumentation_addr_witness :
    ∃ t c a5 d0,
      (itmRun ITMDecoder.new [0, 0, 0, 0, 0, 0x80, 0x1C, 0x01]).1.state =
        ITMSt.Instrumentation t c a5 d0 ∧
      a5 ≤ 31 ∧
      (itmRun ITMDecoder.new [0, 0, 0, 0, 0, 0x80, 0x1C, 0x01]).1.i.page_register
        % 32 = 0 ∧
      (itmRun ITMDecoder.new [0, 0, 0, 0, 0, 0x80, 0x1C, 0x01]).1.i.page_register
        ≤ 224 ∧
      a5 + (itmRun ITMDecoder.new [0, 0, 0, 0, 0, 0x80, 0x1C, 0x01]).1.i.page_register
        ≤ 255 ∧
      32 = a5 + (itmRun ITMDecoder.new [0, 0, 0, 0, 0, 0x80, 0x1C, 0x01]).1.i.page_register :=
  c6_instrumentation_addr.1 [0, 0, 0, 0, 0, 0x80, 0x1C, 0x01] 0x22 32 0x22 1
    (by decide)

/-- Safety of the `panic!()` arm inside `DataTrace::matches`: every token
routed to it by the two `Idle` data-trace rows matches one of the four
subkind patterns. -/
def dtArmOk (tok : Nat) : Prop :=
  (tok &&& 0xC4 = 0x44 ∨ tok &&& 0xC4 = 0x84) →
    (tok &&& 0xCF = 0x45 ∨ tok &&& 0xCC = 0x44 ∨ tok &&& 0xCC = 0x4C ∨
      tok &&& 0xC4 = 0x84)

instance dtArmOk.instDecidable (tok : Nat) : Decidable (dtArmOk tok) := by
  unfold dtArmOk
  infer_instance

/-- Safety conditions for evaluating one `State::token` call: every left
shift the source performs stays below the operand width (the guards shown
are the source's own `count` guards), the `u8` address addition at
`Instrumentation` emission does not overflow, and tokens the `Idle` rows
route to `DataTrace::matches` cannot reach its `panic!()` arm. -/
def tokSafe (s : ITMSt) (tok pr : Nat) : Prop :=
  match s with
  | .Idle => dtArmOk tok
  | .Instrumentation _ c a _ => (c ≤ 4 → 8 * c < 32) ∧ a + pr ≤ 255
  | .Xtn _ _ bc c => c ≤ 4 → bc < 32
  | .Lts c _ _ => c < 4 → 7 * c < 64
  | .Gts2 c _ => c < 7 → 7 * c < 64
  | .Gts1 c _ _ => c ≤ 3 → 7 * c < 64
  | .DataTrace _ _ c _ _ _ => 8 * c < 32
  | .PCSample l c _ => l = 1 ∨ 8 * c < 32
  | _ => True

/-- A whole run is safe if every step is safe in the state it executes in. -/
def runSafe : ITMDecoder → List Nat → Prop
  | _, [] => True
  | d, b :: rest => tokSafe d.state b d.i.page_register ∧ runSafe (d.token b).1 rest

set_option maxRecDepth 4096 in
/-- Every byte value satisfies the `DataTrace::matches` routing condition. -/
theorem dtArmOk_all : ∀ tok, tok < 256 → dtArmOk tok := by decide

/-- The reachability invariant forces every step to be safe. -/
theorem tokSafe_of_inv (s : ITMSt) (tok pr : Nat) (hst : stInv s) (hpr : pr ≤ 224)
    (htok : tok < 256) : tokSafe s tok pr := by
  cases s with
  | Unsynced => trivial
  | Idle => exact dtArmOk_all tok htok
  | Instrumentation t c a d =>
      simp only [stInv] at hst
      exact ⟨by omega, by omega⟩
  | Xtn ex src bc c =>
      simp only [stInv] at hst
      intro hc
      omega
  | Lts c ty ts =>
      intro hc
      omega
  | Gts2 c g =>
      intro hc
      omega
  | Gts1 c g w =>
      intro hc
      omega
  | Exception no c ev => trivial
  | DataTrace ix l c a dt w =>
      simp only [stInv] at hst
      simp only [tokSafe]
      omega
  | PCSample l c a =>
      simp only [stInv] at hst
      exact Or.inr (by omega)
  | Event => trivial
  | PMUOverflow => trivial

/-- Safety along any run from an invariant state over byte-valued input. -/
theorem runSafe_of_inv (input : List Nat) : ∀ d : ITMDecoder, decInv d →
    (∀ b ∈ input, b < 256) → runSafe d input := by
  induction input with
  | nil => intro d _ _; trivial
  | cons b rest ih =>
      intro d hd hb
      refine ⟨tokSafe_of_inv d.state b d.i.page_register hd.1 hd.2.1
        (hb b (by simp)), ?_⟩
      exact ih (d.token b).1 (token_inv d b hd) (fun x hx => hb x (by simp [hx]))

/-- C10: feeding any finite byte sequence to a fresh ITM decoder is
panic-free: every shift guard of the source is satisfied at each step, the
`Instrumentation` address addition stays within `u8`, the `DataTrace::matches`
`panic!()` arm is unreachable, and every accumulator state reached satisfies
the length/count invariant (lengths in `{1, 2, 4}`, counts below target). -/
theorem c10_no_panic (input : List Nat) (h : ∀ b ∈ input, b < 256) :
    runSafe ITMDecoder.new input ∧ decInv (itmRun ITMDecoder.new input).1 :=
  ⟨runSafe_of_inv input ITMDecoder.new new_inv h,
   itmRun_inv input ITMDecoder.new new_inv⟩

/-- Witness for C10: a concrete run through sync, PMU overflow, a data-trace
packet and a PC-sleep byte. -/
theorem c10_no_panic_witness :
    runSafe ITMDecoder.new [0, 0, 0, 0, 0, 0x80, 0x1D, 0x45, 0x22, 0xFF] ∧
    decInv (itmRun ITMDecoder.new [0, 0, 0, 0, 0, 0x80, 0x1D, 0x45, 0x22, 0xFF]).1 :=
  c10_no_panic [0, 0, 0, 0, 0, 0x80, 0x1D, 0x45, 0x22, 0xFF] (by decide)

/-- The `i1` update at the head of `ITMDecoder::token`: roll the byte into
the window and count it. -/
def bumped (i : ITMInternal) (tok : Nat) : ITMInternal :=
  { i with
    last_bytes := (i.last_bytes * 256 + tok) % 18446744073709551616
    stats := { i.stats with inbytestotal := i.stats.inbytestotal + 1 } }

/-- When neither sync pattern matches the updated window, `token` is exactly
the state dispatch on the bumped internal data (component-wise). -/
theorem token_nosync (d : ITMDecoder) (tok : Nat)
    (hT : ¬((d.i.last_bytes * 256 + tok) % 18446744073709551616 &&& TPIU_SYNCMASK
      = TPIU_SYNCPATTERN))
    (hI : ¬((d.i.last_bytes * 256 + tok) % 18446744073709551616 &&& ITM_SYNCMASK
      = ITM_SYNCPATTERN)) :
    (d.token tok).2 = (stateToken d.state tok (bumped d.i tok)).2.2 ∧
    (d.token tok).1.state = (stateToken d.state tok (bumped d.i tok)).2.1 ∧
    (d.token tok).1.i.last_bytes =
      (stateToken d.state tok (bumped d.i tok)).1.last_bytes ∧
    (d.token tok).1.i.page_register =
      (stateToken d.state tok (bumped d.i tok)).1.page_register := by
  unfold ITMDecoder.token
  dsimp only
  split_ifs with h1 h2 h3
  all_goals first
    | exact ⟨rfl, rfl, rfl, rfl⟩
    | exact absurd (show (d.i.last_bytes * 256 + tok) % 18446744073709551616 &&&
        TPIU_SYNCMASK = TPIU_SYNCPATTERN from by assumption) hT
    | exact absurd (show (d.i.last_bytes * 256 + tok) % 18446744073709551616 &&&
        ITM_SYNCMASK = ITM_SYNCPATTERN from by assumption) hI

/-- When the ITM sync pattern (and not the TPIU one) matches the updated
window, `token` emits `Sync`, resets the page register and goes `Idle`. -/
theorem token_itmsync (d : ITMDecoder) (tok : Nat)
    (hT : ¬((d.i.last_bytes * 256 + tok) % 18446744073709551616 &&& TPIU_SYNCMASK
      = TPIU_SYNCPATTERN))
    (hI : (d.i.last_bytes * 256 + tok) % 18446744073709551616 &&& ITM_SYNCMASK
      = ITM_SYNCPATTERN) :
    (d.token tok).1.state = ITMSt.Idle ∧
    (d.token tok).1.i.page_register = 0 ∧
    (d.token tok).2 = some (ITMFrame.Sync (d.i.stats.itmsync + 1)) := by
  unfold ITMDecoder.token
  dsimp only
  split_ifs with h1 h2 h3
  all_goals first
    | exact ⟨rfl, rfl, rfl⟩
    | exact absurd (show (d.i.last_bytes * 256 + tok) % 18446744073709551616 &&&
        TPIU_SYNCMASK = TPIU_SYNCPATTERN from by assumption) hT
    | exact absurd hI (show ¬((d.i.last_bytes * 256 + tok) % 18446744073709551616 &&&
        ITM_SYNCMASK = ITM_SYNCPATTERN) from by assumption)

/-- On a zero byte, every state under the invariant either emits nothing or
completes its frame and returns to `Idle`; `Idle` itself (the padding row)
stays `Idle` and emits nothing. -/
theorem stateZero (s : ITMSt) (j : ITMInternal) (hst : stInv s) :
    ((stateToken s 0 j).2.2 = none ∨ (stateToken s 0 j).2.1 = ITMSt.Idle) ∧
    (s = ITMSt.Idle →
      (stateToken s 0 j).2.2 = none ∧ (stateToken s 0 j).2.1 = ITMSt.Idle) := by
  cases s with
  | Unsynced => exact ⟨Or.inl rfl, fun h => ITMSt.noConfusion h⟩
  | Idle => exact ⟨Or.inl rfl, fun _ => ⟨rfl, rfl⟩⟩
  | Instrumentation t c a0 d0 =>
      refine ⟨?_, fun h => ITMSt.noConfusion h⟩
      simp only [stateToken]
      unfold instrumentationToken
      dsimp only
      split_ifs <;> simp
  | Xtn ex src bc c =>
      refine ⟨?_, fun h => ITMSt.noConfusion h⟩
      simp only [stateToken]
      unfold xtnToken
      dsimp only
      split_ifs <;> simp
  | Lts c ty ts =>
      refine ⟨?_, fun h => ITMSt.noConfusion h⟩
      simp only [stateToken]
      unfold ltsToken
      dsimp only
      split_ifs <;> simp
  | Gts2 c g =>
      refine ⟨?_, fun h => ITMSt.noConfusion h⟩
      simp only [stateToken]
      unfold gts2Token
      dsimp only
      split_ifs <;> simp
  | Gts1 c g w =>
      refine ⟨?_, fun h => ITMSt.noConfusion h⟩
      simp only [stateToken]
      unfold gts1Token
      dsimp only
      split_ifs <;> simp
  | Exception no c ev =>
      refine ⟨?_, fun h => ITMSt.noConfusion h⟩
      simp only [stateToken]
      unfold exceptionToken
      dsimp only
      split_ifs <;> simp
  | DataTrace ix l c a dt w =>
      refine ⟨?_, fun h => ITMSt.noConfusion h⟩
      simp only [stateToken]
      cases dt <;> unfold dataTraceToken <;> dsimp only <;> split_ifs <;> simp
  | PCSample l c a =>
      refine ⟨?_, fun h => ITMSt.noConfusion h⟩
      simp only [stateToken]
      unfold pcSampleToken
      dsimp only
      split_ifs <;> simp
  | Event => exact ⟨Or.inr rfl, fun h => ITMSt.noConfusion h⟩
  | PMUOverflow => exact ⟨Or.inr rfl, fun h => ITMSt.noConfusion h⟩

/-- One zero byte never matches a sync pattern (their low bytes are nonzero),
so it multiplies the window by 256, and either emits nothing or lands in
`Idle`; from `Idle` it emits nothing and stays. -/
theorem zeroStep (d : ITMDecoder) (h : decInv d) :
    (d.token 0).1.i.last_bytes = d.i.last_bytes * 256 % 18446744073709551616 ∧
    ((d.token 0).2 = none ∨ (d.token 0).1.state = ITMSt.Idle) ∧
    (d.state = ITMSt.Idle →
      (d.token 0).2 = none ∧ (d.token 0).1.state = ITMSt.Idle) := by
  have hT : ¬((d.i.last_bytes * 256 + 0) % 18446744073709551616 &&& TPIU_SYNCMASK
      = TPIU_SYNCPATTERN) := by
    simp only [TPIU_SYNCMASK, TPIU_SYNCPATTERN]
    rw [and_mask32]
    omega
  have hI0 : ¬((d.i.last_bytes * 256 + 0) % 18446744073709551616 &&& ITM_SYNCMASK
      = ITM_SYNCPATTERN) := by
    simp only [ITM_SYNCMASK, ITM_SYNCPATTERN]
    rw [and_mask48]
    omega
  obtain ⟨he, hs, hlb, _⟩ := token_nosync d 0 hT hI0
  obtain ⟨hz1, hz2⟩ := stateZero d.state (bumped d.i 0) h.1
  obtain ⟨_, _, hfc⟩ := stateToken_facts d.state 0 (bumped d.i 0) h.1
  refine ⟨?_, ?_, ?_⟩
  · rw [hlb, hfc]
    show (d.i.last_bytes * 256 + 0) % 18446744073709551616 =
      d.i.last_bytes * 256 % 18446744073709551616
    omega
  · rcases hz1 with hz | hz
    · exact Or.inl (he.trans hz)
    · exact Or.inr (hs.trans hz)
  · intro hid
    obtain ⟨z1, z2⟩ := hz2 hid
    exact ⟨he.trans z1, hs.trans z2⟩

/-- Running a concatenation is running the pieces in sequence. -/
theorem itmRun_append (xs ys : List Nat) : ∀ d : ITMDecoder,
    itmRun d (xs ++ ys) =
      ((itmRun (itmRun d xs).1 ys).1,
        (itmRun d xs).2 ++ (itmRun (itmRun d xs).1 ys).2) := by
  induction xs with
  | nil => intro d; simp [itmRun]
  | cons b rest ih =>
      intro d
      simp only [List.cons_append, itmRun, List.append_eq]
      rw [ih (d.token b).1]
      simp [List.append_assoc]

/-- Modular bookkeeping for the window over repeated zero bytes. -/
theorem mod_mul_pow (a n : Nat) :
    a * 256 % 18446744073709551616 * 256 ^ n % 18446744073709551616 =
      a * 256 ^ (n + 1) % 18446744073709551616 := by
  rw [Nat.mod_mul_mod, pow_succ]
  ring_nf

/-- From `Idle`, zero bytes keep the decoder in `Idle` emitting nothing. -/
theorem idleZeros (n : Nat) : ∀ d : ITMDecoder, decInv d →
    d.state = ITMSt.Idle →
    (itmRun d (List.replicate n 0)).2 = [] ∧
    (itmRun d (List.replicate n 0)).1.state = ITMSt.Idle ∧
    (itmRun d (List.replicate n 0)).1.i.last_bytes =
      d.i.last_bytes * 256 ^ n % 18446744073709551616 := by
  induction n with
  | zero =>
      intro d hd hs
      have hlbB : d.i.last_bytes < 18446744073709551616 := hd.2.2.2
      refine ⟨rfl, hs, ?_⟩
      show d.i.last_bytes = d.i.last_bytes * 256 ^ 0 % 18446744073709551616
      simp only [pow_zero, Nat.mul_one]
      omega
  | succ n ih =>
      intro d hd hs
      obtain ⟨hlb, _, hidle⟩ := zeroStep d hd
      obtain ⟨z1, z2⟩ := hidle hs
      have hrec := ih (d.token 0).1 (token_inv d 0 hd) z2
      simp only [List.replicate_succ, itmRun]
      refine ⟨?_, hrec.2.1, ?_⟩
      · rw [z1]
        simpa using hrec.1
      · rw [hrec.2.2, hlb]
        exact mod_mul_pow d.i.last_bytes n

/-- From any invariant state, a block of zero bytes emits at most one frame
(the completion of an in-progress packet) and multiplies the window by
`256 ^ n` mod `2 ^ 64`. -/
theorem zerosRun (n : Nat) : ∀ d : ITMDecoder, decInv d →
    ∃ opt : Option ITMFrame,
      (itmRun d (List.replicate n 0)).2 = opt.toList ∧
      (itmRun d (List.replicate n 0)).1.i.last_bytes =
        d.i.last_bytes * 256 ^ n % 18446744073709551616 := by
  induction n with
  | zero =>
      intro d hd
      have hlbB : d.i.last_bytes < 18446744073709551616 := hd.2.2.2
      refine ⟨none, rfl, ?_⟩
      show d.i.last_bytes = d.i.last_bytes * 256 ^ 0 % 18446744073709551616
      simp only [pow_zero, Nat.mul_one]
      omega
  | succ n ih =>
      intro d hd
      obtain ⟨hlb, hdisj, _⟩ := zeroStep d hd
      simp only [List.replicate_succ, itmRun]
      rcases he : (d.token 0).2 with _ | f
      · obtain ⟨opt, ho1, ho2⟩ := ih (d.token 0).1 (token_inv d 0 hd)
        refine ⟨opt, ?_, ?_⟩
        · simpa using ho1
        · rw [ho2, hlb]
          exact mod_mul_pow d.i.last_bytes n
      · have hidle2 : (d.token 0).1.state = ITMSt.Idle := by
          rcases hdisj with hz | hz
          · rw [he] at hz
            exact Option.noConfusion hz
          · exact hz
        obtain ⟨z1, z2, z3⟩ := idleZeros n (d.token 0).1 (token_inv d 0 hd) hidle2
        refine ⟨some f, ?_, ?_⟩
        · rw [z1]
          simp
        · rw [z3, hlb]
          exact mod_mul_pow d.i.last_bytes n

/-- From any state satisfying the invariant, five zero bytes then `0x80`
yield at most one in-progress frame followed by a `Sync` frame, with the
page register reset and the state `Idle`. -/
theorem syncRecovery (d0 : ITMDecoder) (hinv : decInv d0) :
    ∃ (opt : Option ITMFrame) (c : Nat),
      (itmRun d0 [0, 0, 0, 0, 0, 0x80]).2 = opt.toList ++ [ITMFrame.Sync c] ∧
      (itmRun d0 [0, 0, 0, 0, 0, 0x80]).1.state = ITMSt.Idle ∧
      (itmRun d0 [0, 0, 0, 0, 0, 0x80]).1.i.page_register = 0 := by
  obtain ⟨opt, ho1, ho2⟩ := zerosRun 5 d0 hinv
  have hrw : itmRun d0 [0, 0, 0, 0, 0, 0x80] =
      ((itmRun (itmRun d0 (List.replicate 5 0)).1 [0x80]).1,
        (itmRun d0 (List.replicate 5 0)).2 ++
          (itmRun (itmRun d0 (List.replicate 5 0)).1 [0x80]).2) := by
    have h1 : ([0, 0, 0, 0, 0, 0x80] : List Nat) = List.replicate 5 0 ++ [0x80] := rfl
    rw [h1]
    exact itmRun_append (List.replicate 5 0) [0x80] d0
  have hfr : (itmRun d0 [0, 0, 0, 0, 0, 0x80]).2 =
      (itmRun d0 (List.replicate 5 0)).2 ++
        (itmRun (itmRun d0 (List.replicate 5 0)).1 [0x80]).2 := by
    rw [hrw]
  have hd1 : (itmRun d0 [0, 0, 0, 0, 0, 0x80]).1 =
      (itmRun (itmRun d0 (List.replicate 5 0)).1 [0x80]).1 := by
    rw [hrw]
  have hdiv : (itmRun d0 (List.replicate 5 0)).1.i.last_bytes % 1099511627776 = 0 := by
    have h2 : (256 : Nat) ^ 5 = 1099511627776 := by norm_num
    rw [ho2, h2]
    omega
  have hT : ¬(((itmRun d0 (List.replicate 5 0)).1.i.last_bytes * 256 + 128) %
      18446744073709551616 &&& TPIU_SYNCMASK = TPIU_SYNCPATTERN) := by
    simp only [TPIU_SYNCMASK, TPIU_SYNCPATTERN]
    rw [and_mask32]
    omega
  have hI : ((itmRun d0 (List.replicate 5 0)).1.i.last_bytes * 256 + 128) %
      18446744073709551616 &&& ITM_SYNCMASK = ITM_SYNCPATTERN := by
    simp only [ITM_SYNCMASK, ITM_SYNCPATTERN]
    rw [and_mask48]
    omega
  obtain ⟨hst, hpr, hem⟩ := token_itmsync (itmRun d0 (List.replicate 5 0)).1 128 hT hI
  have hfr2 : (itmRun (itmRun d0 (List.replicate 5 0)).1 [0x80]).2 =
      ((itmRun d0 (List.replicate 5 0)).1.token 128).2.toList := by
    simp [itmRun]
  have hd2 : (itmRun (itmRun d0 (List.replicate 5 0)).1 [0x80]).1 =
      ((itmRun d0 (List.replicate 5 0)).1.token 128).1 := rfl
  refine ⟨opt, (itmRun d0 (List.replicate 5 0)).1.i.stats.itmsync + 1, ?_, ?_, ?_⟩
  · rw [hfr, hfr2, ho1, hem]
    rfl
  · rw [hd1, hd2]
    exact hst
  · rw [hd1, hd2]
    exact hpr

/-- C3: after any prior input, feeding the five zero bytes and then `0x80`
emits at most one other (in-progress) frame followed by a `Sync` frame, and
at the `Sync` emission the page register is reset to 0 and the decoder state
is `Idle`. -/
theorem c3_sync_recovery (prior : List Nat) :
    ∃ (opt : Option ITMFrame) (c : Nat),
      (itmRun (itmRun ITMDecoder.new prior).1 [0, 0, 0, 0, 0, 0x80]).2 =
        opt.toList ++ [ITMFrame.Sync c] ∧
      (itmRun (itmRun ITMDecoder.new prior).1 [0, 0, 0, 0, 0, 0x80]).1.state =
        ITMSt.Idle ∧
      (itmRun (itmRun ITMDecoder.new prior).1
          [0, 0, 0, 0, 0, 0x80]).1.i.page_register = 0 :=
  syncRecovery (itmRun ITMDecoder.new prior).1
    (itmRun_inv prior ITMDecoder.new new_inv)

/-- Witness for C2: the amended dispatch evaluated at the byte `0x45`. -/
theorem c2_data_trace_dispatch_witness :
    (stateToken .Idle 0x45 ITMInternal.init).2.1 =
      ITMSt.DataTrace ((0x45 >>> 4) &&& 3) (if 0x45 &&& 3 = 3 then 4 else 0x45 &&& 3)
        0 0 (dtTypeOf 0x45) (0x45 &&& 8 != 0) ∧
    (stateToken .Idle 0x45 ITMInternal.init).1 = ITMInternal.init :=
  c2_data_trace_dispatch 0x45 ITMInternal.init (by decide) (by decide) (by decide)
    (by decide) (by decide) (by decide) (by decide) (by decide) (by decide) (by decide)

end Metalwork
